import Mathlib

/-!
# Verification of the musicdb core library

A shallow embedding of the parts of `musicdb-lib` (Rust) that the checked
claims are about: the binary codec for the playback queue, the catalog store
(`Database`) with its id allocation and parent-link maintenance, the queue
algebra (insert, advance, init, shuffle/random actions), command application
with subscriber broadcast, connection initialization, the get-channel request
handler, and database saving.

Rust machine integers (`u64` / `usize`) are modelled as `Nat` with explicit
`< 2 ^ 64` bounds where serialization makes the width observable. Strings that
only flow through the codec are modelled as their UTF-8 byte sequences
(`List Nat`, entries `< 256`). Randomness (`rand::thread_rng`) is modelled by
oracle parameters: a shuffling function and a bounded-pick function, quantified
over in the theorems. Filesystem and socket effects are modelled as explicit
event values returned by the functions.

Where a definition's Rust source is not part of the repository snapshot under
verification (e.g. the primitive `ToFromBytes` impls of `load.rs`), the
definition's doc comment says `Modelled from the spec:` and follows the
specification's description of the missing code.
-/

namespace Musicdb

/-! ## Byte-level primitives

Modelled from the spec: the primitive `ToFromBytes` impls live in `load.rs`,
which is not part of the source snapshot. The spec (§4.1) fixes them as:
fixed-width little-endian integers; `text` is a u64 length prefix followed by
the UTF-8 bytes; `sequence`/`deque` are a u64 length followed by the elements.
-/

/-- Little-endian encoding of `n` into exactly `width` bytes (low byte first). -/
def encNatLE : Nat → Nat → List Nat
  | 0, _ => []
  | width + 1, n => n % 256 :: encNatLE width (n / 256)

/-- Read exactly `width` little-endian bytes from the stream, returning the
value and the unconsumed tail. -/
def decNatLE : Nat → List Nat → Option (Nat × List Nat)
  | 0, l => some (0, l)
  | width + 1, l =>
    match l with
    | [] => none
    | b :: t =>
      match decNatLE width t with
      | none => none
      | some (v, rest) => some (b + 256 * v, rest)

/-- A `u64`/`usize` is eight little-endian bytes (64-bit target). -/
def encU64 (n : Nat) : List Nat := encNatLE 8 n

/-- Decode a `u64`/`usize`: eight little-endian bytes. -/
def decU64 (l : List Nat) : Option (Nat × List Nat) := decNatLE 8 l

/-- Take exactly `n` items off the front of a list, returning them and the
tail, or `none` when the list is too short (a short read). -/
def takeExact : Nat → List Nat → Option (List Nat × List Nat)
  | 0, l => some ([], l)
  | n + 1, l =>
    match l with
    | [] => none
    | b :: t =>
      match takeExact n t with
      | none => none
      | some (bs, rest) => some (b :: bs, rest)

/-- Model of `text` encoding: u64 byte count, then the bytes themselves. -/
def encBytes (s : List Nat) : List Nat := encU64 s.length ++ s

/-- Model of `text` decoding: read the u64 byte count, then exactly that many bytes. -/
def decBytes (l : List Nat) : Option (List Nat × List Nat) :=
  match decU64 l with
  | none => none
  | some (n, rest) => takeExact n rest

/-- Model of `sequence<usize>` encoding: u64 element count, then each element as u64. -/
def encNatList (s : List Nat) : List Nat :=
  encU64 s.length ++ s.flatMap encU64

/-- Decode exactly `n` consecutive u64 values. -/
def decNatListN : Nat → List Nat → Option (List Nat × List Nat)
  | 0, l => some ([], l)
  | n + 1, l =>
    match decU64 l with
    | none => none
    | some (v, rest) =>
      match decNatListN n rest with
      | none => none
      | some (vs, rest') => some (v :: vs, rest')

/-- Model of `sequence<usize>` decoding: u64 count, then that many u64 values. -/
def decNatList (l : List Nat) : Option (List Nat × List Nat) :=
  match decU64 l with
  | none => none
  | some (n, rest) => decNatListN n rest

/-! ### Round-trip laws for the primitives -/

theorem decNatLE_encNatLE (width : Nat) :
    ∀ (n : Nat) (rest : List Nat),
      decNatLE width (encNatLE width n ++ rest) = some (n % 256 ^ width, rest) := by
  induction width with
  | zero => intro n rest; simp [encNatLE, decNatLE, Nat.mod_one]
  | succ w ih =>
    intro n rest
    simp only [encNatLE, decNatLE, List.cons_append, ih]
    have hE : 0 < 256 ^ w := pow_pos (by norm_num) w
    have h1 : n / 256 % 256 ^ w < 256 ^ w := Nat.mod_lt _ hE
    have h2 : n % 256 < 256 := Nat.mod_lt _ (by norm_num)
    have hsmall : 256 * (n / 256 % 256 ^ w) + n % 256 < 256 * 256 ^ w := by omega
    have hn : n = (256 * 256 ^ w) * (n / 256 / 256 ^ w) +
        (256 * (n / 256 % 256 ^ w) + n % 256) := by
      have d2 := Nat.div_add_mod (n / 256) (256 ^ w)
      calc n = 256 * (n / 256) + n % 256 := (Nat.div_add_mod n 256).symm
        _ = 256 * (256 ^ w * (n / 256 / 256 ^ w) + n / 256 % 256 ^ w) + n % 256 := by
              rw [d2]
        _ = (256 * 256 ^ w) * (n / 256 / 256 ^ w) +
              (256 * (n / 256 % 256 ^ w) + n % 256) := by ring
    have key : n % 256 ^ (w + 1) = 256 * (n / 256 % 256 ^ w) + n % 256 := by
      rw [show (256 : Nat) ^ (w + 1) = 256 * 256 ^ w from by ring]
      conv_lhs => rw [hn]
      rw [Nat.mul_add_mod]
      exact Nat.mod_eq_of_lt hsmall
    rw [key, Nat.add_comm (n % 256)]

theorem decU64_encU64 (n : Nat) (rest : List Nat) (h : n < 2 ^ 64) :
    decU64 (encU64 n ++ rest) = some (n, rest) := by
  have hpow : (256 : Nat) ^ 8 = 2 ^ 64 := by norm_num
  have hmod : n % 256 ^ 8 = n := Nat.mod_eq_of_lt (hpow ▸ h)
  simp only [decU64, encU64, decNatLE_encNatLE, hmod]

theorem takeExact_append (s rest : List Nat) :
    takeExact s.length (s ++ rest) = some (s, rest) := by
  induction s with
  | nil => simp [takeExact]
  | cons b t ih => simp [takeExact, ih]

theorem decBytes_encBytes (s rest : List Nat) (h : s.length < 2 ^ 64) :
    decBytes (encBytes s ++ rest) = some (s, rest) := by
  simp [decBytes, encBytes, List.append_assoc, decU64_encU64 _ _ h, takeExact_append]

theorem decNatList_encNatList (s rest : List Nat) (hlen : s.length < 2 ^ 64)
    (helt : ∀ v ∈ s, v < 2 ^ 64) :
    decNatList (encNatList s ++ rest) = some (s, rest) := by
  simp only [decNatList, encNatList, List.append_assoc, decU64_encU64 _ _ hlen]
  induction s with
  | nil => simp [decNatListN]
  | cons v t ih =>
    simp only [List.flatMap_cons, List.append_assoc, decNatListN,
      decU64_encU64 _ _ (helt v (by simp))]
    rw [ih (by simp at hlen ⊢; omega) (fun w hw => helt w (by simp [hw]))]

/-! ## The queue tree (`musicdb-lib/src/data/queue.rs`) -/

mutual
/-- Model of `Queue` (queue.rs): an `enabled` flag plus a `QueueContent`. -/
inductive Queue where
  | mk (enabled : Bool) (content : QueueContent)

/-- Model of `QueueContent` (queue.rs): `Song(SongId)`, `Folder(usize, Vec<Queue>,
String)`, `Loop(usize, usize, Box<Queue>)`, `Random(VecDeque<Queue>)`,
`Shuffle(usize, Vec<usize>, Vec<Queue>, usize)`. Folder names are modelled as
their UTF-8 byte sequences. -/
inductive QueueContent where
  | song (id : Nat)
  | folder (index : Nat) (contents : QueueList) (name : List Nat)
  | loop (total current : Nat) (inner : Queue)
  | random (buffer : QueueList)
  | shuffle (current : Nat) (map : List Nat) (elems : QueueList) (next : Nat)

/-- A sequence of queues (`Vec<Queue>` / `VecDeque<Queue>`), kept as a mutual
inductive so every traversal of the tree is structural. -/
inductive QueueList where
  | nil
  | cons (head : Queue) (tail : QueueList)
end

def Queue.enabled : Queue → Bool
  | .mk e _ => e

def Queue.content : Queue → QueueContent
  | .mk _ c => c

def QueueList.length : QueueList → Nat
  | .nil => 0
  | .cons _ t => t.length + 1

/-- Model of `Vec::get` / `VecDeque::get`: the element at index `i`, if in bounds. -/
def QueueList.get? : QueueList → Nat → Option Queue
  | .nil, _ => none
  | .cons h _, 0 => some h
  | .cons _ t, i + 1 => t.get? i

/-- Replace the element at index `i` (identity when out of bounds); the model
of an in-place write through `get_mut`. -/
def QueueList.set : QueueList → Nat → Queue → QueueList
  | .nil, _, _ => .nil
  | .cons _ t, 0, v => .cons v t
  | .cons h t, i + 1, v => .cons h (t.set i v)

/-- Model of `Vec::insert(index, v)` (callers guarantee `index ≤ length`). -/
def QueueList.insertAt : QueueList → Nat → Queue → QueueList
  | l, 0, v => .cons v l
  | .nil, _ + 1, v => .cons v .nil
  | .cons h t, i + 1, v => .cons h (t.insertAt i v)

/-- Model of `Vec::remove(i)` / `VecDeque::remove(i)`: drop the element at `i`. -/
def QueueList.removeAt : QueueList → Nat → QueueList
  | .nil, _ => .nil
  | .cons _ t, 0 => t
  | .cons h t, i + 1 => .cons h (t.removeAt i)

/-- Model of `Vec::push` / `VecDeque::push_back`. -/
def QueueList.push : QueueList → Queue → QueueList
  | .nil, v => .cons v .nil
  | .cons h t, v => .cons h (t.push v)

/-! ## Queue codec (`impl ToFromBytes for Queue` / `QueueContent`, queue.rs)

The tag bytes are the source's bit patterns: `Song = 0b11111111`,
`Folder = 0b00000000`, `Loop = 0b11000000`, `Random = 0b00110000`,
`Shuffle = 0b00001100`. The `Queue` wrapper writes `0b11111111` for an enabled
queue and `0b00000000` for a disabled one, and decodes the flag byte through
`u8::count_ones() >= 4`.
-/

/-- Model of `u8::count_ones`: how many of the 8 bits of a byte are set. -/
def popCount8 (n : Nat) : Nat :=
  (List.range 8).countP (fun i => n.testBit i)

mutual
/-- Model of `Queue::to_bytes`: flag byte, then the content. -/
def encQueue : Queue → List Nat
  | .mk e c => (if e then 255 else 0) :: encContent c

/-- Model of `QueueContent::to_bytes`: tag byte, then the fields in declaration order. -/
def encContent : QueueContent → List Nat
  | .song id => 255 :: encU64 id
  | .folder index contents name =>
      0 :: (encU64 index ++ (encU64 contents.length ++ encQL contents) ++
        encBytes name)
  | .loop total current inner =>
      192 :: (encU64 total ++ encU64 current ++ encQueue inner)
  | .random buffer => 48 :: (encU64 buffer.length ++ encQL buffer)
  | .shuffle current map elems next =>
      12 :: (encU64 current ++ encNatList map ++
        (encU64 elems.length ++ encQL elems) ++ encU64 next)

/-- The body of a `Vec<Queue>` encoding: the elements back to back (the u64
count prefix is written by the caller). -/
def encQL : QueueList → List Nat
  | .nil => []
  | .cons q t => encQueue q ++ encQL t
end

/-- The UTF-8 bytes of `"<invalid byte received>"`, the name of the sentinel
folder produced for an unknown tag byte. -/
def invalidTagName : List Nat :=
  "<invalid byte received>".data.map Char.toNat

mutual
/-- Model of `Queue::from_bytes`: read the flag byte (enabled iff it has at least four
set bits), then the content. The fuel argument only bounds recursion depth;
any `fuel ≥ sizeQueue q` reproduces the source's behaviour on `to_bytes q`. -/
def decQueue : Nat → List Nat → Option (Queue × List Nat)
  | 0, _ => none
  | fuel + 1, l =>
    match l with
    | [] => none
    | e :: t =>
      match decContent fuel t with
      | none => none
      | some (c, rest) => some (.mk (decide (4 ≤ popCount8 e)) c, rest)

/-- Model of `QueueContent::from_bytes`: dispatch on the tag byte; any unknown tag
yields `Folder(0, vec![], "<invalid byte received>")`. -/
def decContent : Nat → List Nat → Option (QueueContent × List Nat)
  | 0, _ => none
  | fuel + 1, l =>
    match l with
    | [] => none
    | 255 :: t =>
      match decU64 t with
      | none => none
      | some (id, rest) => some (.song id, rest)
    | 0 :: t =>
      match decU64 t with
      | none => none
      | some (index, rest) =>
        match decU64 rest with
        | none => none
        | some (n, rest1) =>
          match decQLN fuel n rest1 with
          | none => none
          | some (contents, rest2) =>
            match decBytes rest2 with
            | none => none
            | some (name, rest3) => some (.folder index contents name, rest3)
    | 192 :: t =>
      match decU64 t with
      | none => none
      | some (total, rest) =>
        match decU64 rest with
        | none => none
        | some (current, rest1) =>
          match decQueue fuel rest1 with
          | none => none
          | some (inner, rest2) => some (.loop total current inner, rest2)
    | 48 :: t =>
      match decU64 t with
      | none => none
      | some (n, rest) =>
        match decQLN fuel n rest with
        | none => none
        | some (buffer, rest1) => some (.random buffer, rest1)
    | 12 :: t =>
      match decU64 t with
      | none => none
      | some (current, rest) =>
        match decNatList rest with
        | none => none
        | some (map, rest1) =>
          match decU64 rest1 with
          | none => none
          | some (n, rest2) =>
            match decQLN fuel n rest2 with
            | none => none
            | some (elems, rest3) =>
              match decU64 rest3 with
              | none => none
              | some (next, rest4) =>
                some (.shuffle current map elems next, rest4)
    | _ :: t => some (.folder 0 .nil invalidTagName, t)

/-- Decode exactly `n` consecutive queues (the body of `Vec<Queue>::from_bytes`
after its count prefix). -/
def decQLN : Nat → Nat → List Nat → Option (QueueList × List Nat)
  | _, 0, l => some (.nil, l)
  | 0, _ + 1, _ => none
  | fuel + 1, n + 1, l =>
    match decQueue fuel l with
    | none => none
    | some (q, rest) =>
      match decQLN fuel n rest with
      | none => none
      | some (t, rest1) => some (.cons q t, rest1)
end

mutual
/-- Machine-width well-formedness: every `usize`/`u64` field and every length
is below `2 ^ 64`, and name bytes are bytes. Automatic for values arising from
the Rust types. -/
def wfQueue : Queue → Bool
  | .mk _ c => wfContent c

def wfContent : QueueContent → Bool
  | .song id => decide (id < 2 ^ 64)
  | .folder index contents name =>
      decide (index < 2 ^ 64) && decide (contents.length < 2 ^ 64) &&
      wfQL contents && decide (name.length < 2 ^ 64) &&
      name.all (fun b => decide (b < 256))
  | .loop total current inner =>
      decide (total < 2 ^ 64) && decide (current < 2 ^ 64) && wfQueue inner
  | .random buffer => decide (buffer.length < 2 ^ 64) && wfQL buffer
  | .shuffle current map elems next =>
      decide (current < 2 ^ 64) && decide (map.length < 2 ^ 64) &&
      map.all (fun v => decide (v < 2 ^ 64)) &&
      decide (elems.length < 2 ^ 64) && wfQL elems && decide (next < 2 ^ 64)

def wfQL : QueueList → Bool
  | .nil => true
  | .cons q t => wfQueue q && wfQL t
end

mutual
/-- A size measure that bounds the decoding fuel needed for a round trip. -/
def sizeQueue : Queue → Nat
  | .mk _ c => sizeContent c + 1

def sizeContent : QueueContent → Nat
  | .song _ => 1
  | .folder _ contents _ => sizeQL contents + 1
  | .loop _ _ inner => sizeQueue inner + 1
  | .random buffer => sizeQL buffer + 1
  | .shuffle _ _ elems _ => sizeQL elems + 1

def sizeQL : QueueList → Nat
  | .nil => 1
  | .cons q t => sizeQueue q + sizeQL t + 1
end

/-! ### Codec round trip for the queue tree -/

theorem sizeQueue_pos (q : Queue) : 1 ≤ sizeQueue q := by
  cases q with
  | mk e c => simp [sizeQueue]

theorem sizeContent_pos (c : QueueContent) : 1 ≤ sizeContent c := by
  cases c <;> simp [sizeContent]

theorem sizeQL_pos (qs : QueueList) : 1 ≤ sizeQL qs := by
  cases qs <;> simp [sizeQL]

theorem dec_enc_all : ∀ fuel : Nat,
    (∀ (q : Queue) (rest : List Nat), wfQueue q = true → sizeQueue q ≤ fuel →
      decQueue fuel (encQueue q ++ rest) = some (q, rest)) ∧
    (∀ (c : QueueContent) (rest : List Nat), wfContent c = true →
      sizeContent c ≤ fuel →
      decContent fuel (encContent c ++ rest) = some (c, rest)) ∧
    (∀ (qs : QueueList) (rest : List Nat), wfQL qs = true → sizeQL qs ≤ fuel →
      decQLN fuel qs.length (encQL qs ++ rest) = some (qs, rest)) := by
  intro fuel
  induction fuel with
  | zero =>
    refine ⟨fun q _ _ h => absurd h ?_, fun c _ _ h => absurd h ?_,
      fun qs _ _ h => absurd h ?_⟩
    · have := sizeQueue_pos q; omega
    · have := sizeContent_pos c; omega
    · have := sizeQL_pos qs; omega
  | succ f ih =>
    obtain ⟨ihQ, ihC, ihL⟩ := ih
    refine ⟨?_, ?_, ?_⟩
    · intro q rest hwf hsz
      cases q with
      | mk e c =>
        have hc : decContent f (encContent c ++ rest) = some (c, rest) := by
          apply ihC c rest
          · simpa [wfQueue] using hwf
          · simp [sizeQueue] at hsz; omega
        cases e <;> simp [encQueue, decQueue, hc] <;> decide
    · intro c rest hwf hsz
      cases c with
      | song id =>
        have hid : id < 2 ^ 64 := by simpa [wfContent] using hwf
        simp [encContent, decContent, decU64_encU64 _ _ hid]
      | folder index contents name =>
        simp only [wfContent, Bool.and_eq_true, decide_eq_true_eq,
          List.all_eq_true] at hwf
        obtain ⟨⟨⟨⟨hidx, hlen⟩, hwfl⟩, hname⟩, hbytes⟩ := hwf
        have hsz' : sizeQL contents ≤ f := by
          simp [sizeContent] at hsz; omega
        simp only [encContent, decContent, List.cons_append, List.append_assoc,
          decU64_encU64 _ _ hidx, decU64_encU64 _ _ hlen,
          ihL contents _ hwfl hsz', decBytes_encBytes _ _ hname]
      | loop total current inner =>
        simp only [wfContent, Bool.and_eq_true, decide_eq_true_eq] at hwf
        obtain ⟨⟨htot, hcur⟩, hwfi⟩ := hwf
        have hsz' : sizeQueue inner ≤ f := by
          simp [sizeContent] at hsz; omega
        simp only [encContent, decContent, List.cons_append, List.append_assoc,
          decU64_encU64 _ _ htot, decU64_encU64 _ _ hcur,
          ihQ inner _ hwfi hsz']
      | random buffer =>
        simp only [wfContent, Bool.and_eq_true, decide_eq_true_eq] at hwf
        obtain ⟨hlen, hwfl⟩ := hwf
        have hsz' : sizeQL buffer ≤ f := by
          simp [sizeContent] at hsz; omega
        simp only [encContent, decContent, List.cons_append, List.append_assoc,
          decU64_encU64 _ _ hlen, ihL buffer _ hwfl hsz']
      | shuffle current map elems next =>
        simp only [wfContent, Bool.and_eq_true, decide_eq_true_eq,
          List.all_eq_true] at hwf
        obtain ⟨⟨⟨⟨⟨hcur, hmlen⟩, hmelt⟩, helen⟩, hwfe⟩, hnext⟩ := hwf
        have hsz' : sizeQL elems ≤ f := by
          simp [sizeContent] at hsz; omega
        have hmelt' : ∀ v ∈ map, v < 2 ^ 64 := by
          intro v hv
          simpa using hmelt v hv
        simp only [encContent, decContent, List.cons_append, List.append_assoc,
          decU64_encU64 _ _ hcur, decNatList_encNatList _ _ hmlen hmelt',
          decU64_encU64 _ _ helen, ihL elems _ hwfe hsz',
          decU64_encU64 _ _ hnext]
    · intro qs rest hwf hsz
      cases qs with
      | nil => simp [encQL, decQLN, QueueList.length]
      | cons q t =>
        simp only [wfQL, Bool.and_eq_true] at hwf
        obtain ⟨hwq, hwt⟩ := hwf
        have h1 : sizeQueue q ≤ f := by simp [sizeQL] at hsz; omega
        have h2 : sizeQL t ≤ f := by simp [sizeQL] at hsz; omega
        simp only [encQL, QueueList.length, decQLN, List.append_assoc,
          ihQ q _ hwq h1, ihL t _ hwt h2]

theorem decContent_unknownTag (fuel b : Nat) (t : List Nat)
    (h255 : b ≠ 255) (h0 : b ≠ 0) (h192 : b ≠ 192) (h48 : b ≠ 48)
    (h12 : b ≠ 12) :
    decContent (fuel + 1) (b :: t) = some (.folder 0 .nil invalidTagName, t) := by
  simp only [decContent]

theorem decQueue_flagByte (fuel b : Nat) (c : QueueContent) (rest : List Nat)
    (hwf : wfContent c = true) (hsz : sizeContent c ≤ fuel) :
    decQueue (fuel + 1) (b :: (encContent c ++ rest)) =
      some (.mk (decide (4 ≤ popCount8 b)) c, rest) := by
  simp only [decQueue, (dec_enc_all fuel).2.1 c rest hwf hsz]

/-- C1. Codec round-trip for the queue: decoding the encoding of any
machine-representable `Queue` value returns that value and leaves the rest of
the stream untouched; decoding a `QueueContent` whose tag byte is none of the
five known tags (`Song = 0xFF`, `Folder = 0x00`, `Loop = 0xC0`,
`Random = 0x30`, `Shuffle = 0x0C`) yields
`Folder(0, [], "<invalid byte received>")` rather than failing; the `Queue`
wrapper's `enabled` flag decodes to `true` exactly when the flag byte has at
least four set bits; and `to_bytes` writes `0xFF` for an enabled queue and
`0x00` for a disabled one. -/
theorem C1_codec_roundtrip :
    (∀ (q : Queue) (fuel : Nat) (rest : List Nat),
      wfQueue q = true → sizeQueue q ≤ fuel →
      decQueue fuel (encQueue q ++ rest) = some (q, rest)) ∧
    (∀ (fuel b : Nat) (t : List Nat),
      b ≠ 255 → b ≠ 0 → b ≠ 192 → b ≠ 48 → b ≠ 12 →
      decContent (fuel + 1) (b :: t) =
        some (.folder 0 .nil invalidTagName, t)) ∧
    (∀ (fuel b : Nat) (c : QueueContent) (rest : List Nat),
      wfContent c = true → sizeContent c ≤ fuel →
      ∃ eb, decQueue (fuel + 1) (b :: (encContent c ++ rest)) =
          some (.mk eb c, rest) ∧ (eb = true ↔ 4 ≤ popCount8 b)) ∧
    (∀ c : QueueContent, encQueue (.mk true c) = 255 :: encContent c ∧
      encQueue (.mk false c) = 0 :: encContent c) := by
  refine ⟨fun q fuel rest hwf hsz => (dec_enc_all fuel).1 q rest hwf hsz,
    decContent_unknownTag,
    fun fuel b c rest hwf hsz => ⟨decide (4 ≤ popCount8 b),
      decQueue_flagByte fuel b c rest hwf hsz, by simp⟩,
    fun c => ⟨rfl, rfl⟩⟩

/-- A closed sample queue exercising every constructor. -/
def sampleQueue : Queue :=
  .mk true (.folder 1
    (.cons (.mk true (.song 5))
      (.cons (.mk false (.loop 3 1 (.mk true (.song 7))))
        (.cons (.mk true (.random (.cons (.mk true (.song 2)) .nil)))
          (.cons (.mk true (.shuffle 1 [1, 0]
              (.cons (.mk true (.song 8)) (.cons (.mk true (.song 9)) .nil))
              0))
            .nil))))
    [113, 117, 101, 117, 101])

theorem C1_codec_roundtrip_witness :
    wfQueue sampleQueue = true ∧ sizeQueue sampleQueue ≤ 64 ∧
      decQueue 64 (encQueue sampleQueue ++ [9, 9]) = some (sampleQueue, [9, 9]) ∧
      (7 : Nat) ≠ 255 ∧
      decContent 64 (7 :: [1, 2, 3]) =
        some (.folder 0 .nil invalidTagName, [1, 2, 3]) :=
  ⟨by decide, by decide,
    C1_codec_roundtrip.1 sampleQueue 64 [9, 9] (by decide) (by decide),
    by decide,
    C1_codec_roundtrip.2.1 63 7 [1, 2, 3] (by decide) (by decide) (by decide)
      (by decide) (by decide)⟩

/-! ## Queue algebra (queue.rs)

Randomness (`rand::thread_rng`) is threaded as two oracle parameters:
`shuf`, the permutation applied by `SliceRandom::shuffle`, and `pick`, the
value produced by `Rng::gen_range(0..n)` (callers assume `pick n < n` for
`n > 0`). Theorems quantify over these oracles, covering every possible
outcome of the RNG. -/

/-- Model of `QueueAction` (queue.rs): deferred side effects collected during a walk. -/
inductive QueueAction where
  | addRandomSong (path : List Nat)
  | setShuffle (path : List Nat) (map : List Nat) (next : Nat)

/-- Model of `Queue::add_to_end`: append a child; returns its index, or `None` for
`Song`/`Loop` nodes. -/
def Queue.add_to_end : Queue → Queue → Queue × Option Nat
  | .mk e c, v =>
    match c with
    | .song id => (.mk e (.song id), none)
    | .folder index vec name =>
        (.mk e (.folder index (vec.push v) name), some vec.length)
    | .loop total current inner => (.mk e (.loop total current inner), none)
    | .random q => (.mk e (.random (q.push v)), some q.length)
    | .shuffle current map elems next =>
        (.mk e (.shuffle current (map ++ [elems.length]) (elems.push v) next),
          some map.length)

/-- Model of `Queue::insert(v, index)`: insert a child at `index`; a folder shifts its
cursor forward when the insertion is at or before it. Returns whether the
insertion happened. -/
def Queue.insert : Queue → Queue → Nat → Queue × Bool
  | .mk e c, v, index =>
    match c with
    | .song id => (.mk e (.song id), false)
    | .folder current vec name =>
        if index ≤ vec.length then
          (.mk e (.folder (if index ≤ current then current + 1 else current)
            (vec.insertAt index v) name), true)
        else (.mk e (.folder current vec name), false)
    | .shuffle current map elems next =>
        if index ≤ map.length then
          (.mk e (.shuffle current (map.insertIdx index elems.length)
            (elems.push v) next), true)
        else (.mk e (.shuffle current map elems next), false)
    | .loop total current inner => (.mk e (.loop total current inner), false)
    | .random q => (.mk e (.random q), false)

mutual
/-- Model of `Queue::init` (queue.rs): bring a subtree that just became current into a
playable state. `Folder` inits its first child; `Loop` its inner queue;
`Random` pushes two `AddRandomSong` actions when its buffer is empty and inits
the second-to-last buffered element; `Shuffle` emits one `SetShuffle` action
whose fresh permutation starts with the previously picked `next`. -/
def Queue.init (shuf : List Nat → List Nat) (pick : Nat → Nat) :
    Queue → List Nat → Queue × List QueueAction
  | .mk e c, path =>
    match c with
    | .song id => (.mk e (.song id), [])
    | .folder index vec name =>
        match vec with
        | .nil => (.mk e (.folder index .nil name), [])
        | .cons h t =>
            let r := Queue.init shuf pick h path
            (.mk e (.folder index (.cons r.1 t) name), r.2)
    | .loop total current inner =>
        let r := Queue.init shuf pick inner path
        (.mk e (.loop total current r.1), r.2)
    | .random q =>
        let acts0 : List QueueAction :=
          if q.length = 0 then [.addRandomSong path, .addRandomSong path]
          else []
        match initAt shuf pick q (q.length - 2) path with
        | some (q1, acts1) => (.mk e (.random q1), acts0 ++ acts1)
        | none => (.mk e (.random q), acts0)
    | .shuffle current map elems next =>
        let shuffled := shuf ((List.range elems.length).filter (· ≠ next))
        let newMap :=
          match shuffled with
          | [] => if next < elems.length then [next] else []
          | f :: rest => next :: rest ++ [f]
        let newNext := if elems.length = 0 then 0 else pick elems.length
        (.mk e (.shuffle current map elems next),
          [.setShuffle path newMap newNext])

/-- Model of `get_mut(i)` followed by `init` on the found element, in place. -/
def initAt (shuf : List Nat → List Nat) (pick : Nat → Nat) :
    QueueList → Nat → List Nat → Option (QueueList × List QueueAction)
  | .nil, _, _ => none
  | .cons h t, 0, path =>
      let r := Queue.init shuf pick h path
      some (.cons r.1 t, r.2)
  | .cons h t, i + 1, path =>
      match initAt shuf pick t i path with
      | some (t1, acts) => some (.cons h t1, acts)
      | none => none
end

/-- The skip-disabled search loop of the `Folder` arm of
`advance_index_inner`: look for the first enabled element at position ≥ `start`
in the list, init it in place, and report its index. `none` when every
position ≥ `start` is exhausted (or disabled ones are skipped past the end). -/
def searchEnabledFrom (shuf : List Nat → List Nat) (pick : Nat → Nat) :
    QueueList → Nat → List Nat → Option (QueueList × Nat × List QueueAction)
  | .nil, _, _ => none
  | .cons h t, 0, path =>
      if h.enabled then
        let r := Queue.init shuf pick h path
        some (.cons r.1 t, 0, r.2)
      else
        match searchEnabledFrom shuf pick t 0 path with
        | some (t1, j, acts) => some (.cons h t1, j + 1, acts)
        | none => none
  | .cons h t, start + 1, path =>
      match searchEnabledFrom shuf pick t start path with
      | some (t1, j, acts) => some (.cons h t1, j + 1, acts)
      | none => none

/-- The failure continuation of the `Shuffle` arm of `advance_index_inner`:
`*current += 1`; while another mapped slot remains, init the next element (if
the lookup succeeds) and report `true`; otherwise reset the cursor and report
`false`. -/
def shuffleFail (shuf : List Nat → List Nat) (pick : Nat → Nat) (e : Bool)
    (current : Nat) (map : List Nat) (elems : QueueList) (next : Nat)
    (path : List Nat) (acts : List QueueAction) :
    Queue × Bool × List QueueAction :=
  if current + 1 < map.length then
    match map.get? (current + 1) with
    | some mi =>
        match initAt shuf pick elems mi path with
        | some (el2, acts2) =>
            (.mk e (.shuffle (current + 1) map el2 next), true, acts ++ acts2)
        | none => (.mk e (.shuffle (current + 1) map elems next), true, acts)
    | none => (.mk e (.shuffle (current + 1) map elems next), true, acts)
  else (.mk e (.shuffle 0 map elems next), false, acts)

mutual
/-- Model of `Queue::advance_index_inner` (queue.rs): post-order advancement. Returns
the updated node, whether it advanced, and the collected actions. -/
def Queue.advance_index_inner (shuf : List Nat → List Nat) (pick : Nat → Nat) :
    Queue → List Nat → Queue × Bool × List QueueAction
  | .mk e c, path =>
    match c with
    | .song id => (.mk e (.song id), false, [])
    | .folder index contents name =>
        match advanceAt shuf pick contents index (path ++ [index]) with
        | none => (.mk e (.folder 0 contents name), false, [])
        | some (cs1, true, acts) =>
            (.mk e (.folder index cs1 name), true, acts)
        | some (cs1, false, acts) =>
            match searchEnabledFrom shuf pick cs1 (index + 1) path with
            | some (cs2, j, acts2) =>
                (.mk e (.folder j cs2 name), true, acts ++ acts2)
            | none => (.mk e (.folder 0 cs1 name), false, acts)
    | .loop total current inner =>
        let r := Queue.advance_index_inner shuf pick inner (path ++ [0])
        if r.2.1 then (.mk e (.loop total current r.1), true, r.2.2)
        else if total = 0 ∨ current + 1 < total then
          let ri := Queue.init shuf pick r.1 path
          (.mk e (.loop total (current + 1) ri.1), true, r.2.2 ++ ri.2)
        else (.mk e (.loop total 0 r.1), false, r.2.2)
    | .random q =>
        match advanceAt shuf pick q (q.length - 2) (path ++ [q.length - 2]) with
        | some (q1, true, acts) => (.mk e (.random q1), true, acts)
        | some (q1, false, acts) =>
            let q2 := if 2 ≤ q1.length then q1.removeAt 0 else q1
            match initAt shuf pick q2 (q2.length - 1)
                (path ++ [q2.length - 1]) with
            | some (q3, acts2) =>
                (.mk e (.random q3), false,
                  acts ++ acts2 ++ [.addRandomSong path])
            | none =>
                (.mk e (.random q2), false, acts ++ [.addRandomSong path])
        | none =>
            let q2 := if 2 ≤ q.length then q.removeAt 0 else q
            match initAt shuf pick q2 (q2.length - 1)
                (path ++ [q2.length - 1]) with
            | some (q3, acts2) =>
                (.mk e (.random q3), false, acts2 ++ [.addRandomSong path])
            | none => (.mk e (.random q2), false, [.addRandomSong path])
    | .shuffle current map elems next =>
        match map.get? current with
        | some mi =>
            match advanceAt shuf pick elems mi (path ++ [current]) with
            | some (el1, true, acts) =>
                (.mk e (.shuffle current map el1 next), true, acts)
            | some (el1, false, acts) =>
                shuffleFail shuf pick e current map el1 next path acts
            | none => shuffleFail shuf pick e current map elems next path []
        | none => shuffleFail shuf pick e current map elems next path []

/-- Model of `get_mut(i)` followed by `advance_index_inner` on the found element. -/
def advanceAt (shuf : List Nat → List Nat) (pick : Nat → Nat) :
    QueueList → Nat → List Nat → Option (QueueList × Bool × List QueueAction)
  | .nil, _, _ => none
  | .cons h t, 0, path =>
      let r := Queue.advance_index_inner shuf pick h path
      some (.cons r.1 t, r.2.1, r.2.2)
  | .cons h t, i + 1, path =>
      match advanceAt shuf pick t i path with
      | some (t1, b, acts) => some (.cons h t1, b, acts)
      | none => none
end


mutual
/-- Model of `Queue::get_item_at_index_mut` followed by an in-place update: apply `f`
to the node reached by the index path, or `none` when the path is invalid
(the caller then leaves the queue unchanged). -/
def Queue.modifyAt : Queue → List Nat → (Queue → Queue) → Option Queue
  | q, [], f => some (f q)
  | .mk e c, i :: rest, f =>
    match c with
    | .song _ => none
    | .folder index vec name =>
        match modifyAtQL vec i rest f with
        | some vec1 => some (.mk e (.folder index vec1 name))
        | none => none
    | .loop total current inner =>
        match Queue.modifyAt inner rest f with
        | some inner1 => some (.mk e (.loop total current inner1))
        | none => none
    | .random vec =>
        match modifyAtQL vec i rest f with
        | some vec1 => some (.mk e (.random vec1))
        | none => none
    | .shuffle current map elems next =>
        match map.get? i with
        | some mi =>
            match modifyAtQL elems mi rest f with
            | some elems1 => some (.mk e (.shuffle current map elems1 next))
            | none => none
        | none => none

/-- Index into a queue list and modify the subtree at the remaining path. -/
def modifyAtQL : QueueList → Nat → List Nat → (Queue → Queue) →
    Option QueueList
  | .nil, _, _, _ => none
  | .cons h t, 0, rest, f =>
      match Queue.modifyAt h rest f with
      | some h1 => some (.cons h1 t)
      | none => none
  | .cons h t, i + 1, rest, f =>
      match modifyAtQL t i rest f with
      | some t1 => some (.cons h t1)
      | none => none
end

/-- Model of `Queue::remove_by_index`: remove and return the subtree at the path;
cursors (`Folder` index, `Shuffle` current/next) are decremented when they
pointed past the removed position. -/
def Queue.remove_by_index : Queue → List Nat → Queue × Option Queue
  | q, [] => (q, none)
  | .mk e c, i :: rest =>
    match c with
    | .song id => (.mk e (.song id), none)
    | .folder ci v name =>
        match rest with
        | _ :: _ =>
            match v.get? i with
            | some child =>
                let r := Queue.remove_by_index child rest
                (.mk e (.folder ci (v.set i r.1) name), r.2)
            | none => (.mk e (.folder ci v name), none)
        | [] =>
            match v.get? i with
            | some child =>
                (.mk e (.folder (if i < ci then ci - 1 else ci)
                  (v.removeAt i) name), some child)
            | none => (.mk e (.folder ci v name), none)
    | .loop total current inner =>
        match rest with
        | _ :: _ =>
            let r := Queue.remove_by_index inner rest
            (.mk e (.loop total current r.1), r.2)
        | [] => (.mk e (.loop total current inner), none)
    | .random v =>
        match v.get? i with
        | some child => (.mk e (.random (v.removeAt i)), some child)
        | none => (.mk e (.random v), none)
    | .shuffle current map elems next =>
        let current1 := if i < current then current - 1 else current
        let next1 := if i < next then next - 1 else next
        match map.get? i with
        | some elemIdx =>
            let map1 := map.eraseIdx i
            match elems.get? elemIdx with
            | some child =>
                (.mk e (.shuffle current1 map1 (elems.removeAt elemIdx) next1),
                  some child)
            | none => (.mk e (.shuffle current1 map1 elems next1), none)
        | none => (.mk e (.shuffle current1 map elems next1), none)

mutual
/-- Model of `Queue::set_index_inner` (queue.rs): walk the index path, setting each
container's cursor and re-initialising every newly selected subtree; collects
the actions the inits emit. -/
def Queue.set_index_inner (shuf : List Nat → List Nat) (pick : Nat → Nat) :
    Queue → List Nat → List Nat → Queue × List QueueAction
  | q, [], _ => (q, [])
  | .mk e c, i :: rest, build =>
    let b := build ++ [i]
    match c with
    | .song id => (.mk e (.song id), [])
    | .folder _ contents name =>
        match setIndexAt shuf pick contents i rest b with
        | some (cs1, acts) => (.mk e (.folder i cs1 name), acts)
        | none => (.mk e (.folder i contents name), [])
    | .loop total current inner =>
        let r1 := Queue.init shuf pick inner b
        let r2 := Queue.set_index_inner shuf pick r1.1 rest b
        (.mk e (.loop total current r2.1), r1.2 ++ r2.2)
    | .random v => (.mk e (.random v), [])
    | .shuffle _ map elems next =>
        match map.get? i with
        | some mi =>
            match setIndexAt shuf pick elems mi rest b with
            | some (el1, acts) => (.mk e (.shuffle i map el1 next), acts)
            | none => (.mk e (.shuffle i map elems next), [])
        | none => (.mk e (.shuffle i map elems next), [])
termination_by _ path _ => (path.length, 0)

/-- Index into a queue list, then `init` and `set_index_inner` the element. -/
def setIndexAt (shuf : List Nat → List Nat) (pick : Nat → Nat) :
    QueueList → Nat → List Nat → List Nat →
    Option (QueueList × List QueueAction)
  | .nil, _, _, _ => none
  | .cons h t, 0, rest, b =>
      let r1 := Queue.init shuf pick h b
      let r2 := Queue.set_index_inner shuf pick r1.1 rest b
      some (.cons r2.1 t, r1.2 ++ r2.2)
  | .cons h t, j + 1, rest, b =>
      match setIndexAt shuf pick t j rest b with
      | some (t1, acts) => some (.cons h t1, acts)
      | none => none
termination_by _ j rest _ => (rest.length, j + 1)
end

/-! ## Catalog entities -/

/-- Model of `DatabaseLocation`: a path relative to the library root. Modelled from the
spec: the struct lives in `data/mod.rs`, absent from the snapshot; `database.rs`
reads its `rel_path` field in `get_path`. -/
structure DatabaseLocation where
  rel_path : String

/-- Model of `Song` (`data/song.rs`); the runtime-only `cached_data` cell is omitted.
The `artist` field is optional, following its use in
`Database::add_song_new` (`song.artist.clone().map(...)`). -/
structure Song where
  id : Nat
  location : DatabaseLocation
  title : String
  album : Option Nat
  artist : Option Nat
  more_artists : List Nat
  cover : Option Nat
  general : List String

/-- Model of `Artist`. Modelled from the spec (§3): `artist.rs` is absent from the
snapshot; `database.rs` uses its `id`, `albums` and `singles` fields. -/
structure Artist where
  id : Nat
  name : String
  cover : Option Nat
  albums : List Nat
  singles : List Nat
  general : List String

/-- Model of `Album`. Modelled from the spec (§3): `album.rs` is absent from the
snapshot; `database.rs` uses its `id`, `artist` (optional, per
`album.artist.clone().map(...)`) and `songs` fields. -/
structure Album where
  id : Nat
  artist : Option Nat
  name : String
  cover : Option Nat
  songs : List Nat
  general : List String

/-! ## Id-keyed mappings

`HashMap<u64, T>` is modelled as an association list with unique keys;
insertion of a fresh key prepends, `get_mut` maps over the matching entry. -/

/-- Model of `HashMap::get`. -/
def lookup {α : Type} (m : List (Nat × α)) (k : Nat) : Option α :=
  (m.find? (fun p => p.1 == k)).map (·.2)

/-- The key set of a mapping. -/
def keysOf {α : Type} (m : List (Nat × α)) : List Nat := m.map (·.1)

/-- An in-place update through `HashMap::get_mut`. -/
def updateVal {α : Type} (m : List (Nat × α)) (k : Nat) (f : α → α) :
    List (Nat × α) :=
  m.map (fun p => if p.1 = k then (p.1, f p.2) else p)

/-- The id-scanning loop `for key in 0.. { if !map.contains_key(&key) … }`,
with explicit fuel (the Rust loop is unbounded; `keys.length + 1` steps always
reach a free key). -/
def firstUnusedFrom (keys : List Nat) : Nat → Nat → Nat
  | n, 0 => n
  | n, fuel + 1 =>
      if keys.contains n then firstUnusedFrom keys (n + 1) fuel else n

/-- The smallest key not present in `keys`: the id the scanning loop returns. -/
def firstUnused (keys : List Nat) : Nat :=
  firstUnusedFrom keys 0 (keys.length + 1)

theorem countP_lt_of_contains (keys : List Nat) (n : Nat)
    (h : keys.contains n = true) :
    keys.countP (fun k => decide (n + 1 ≤ k)) <
      keys.countP (fun k => decide (n ≤ k)) := by
  induction keys with
  | nil => simp at h
  | cons a t ih =>
    have hmono : t.countP (fun k => decide (n + 1 ≤ k)) ≤
        t.countP (fun k => decide (n ≤ k)) :=
      List.countP_mono_left (fun x _ hx => by
        simp only [decide_eq_true_eq] at hx ⊢; omega)
    rcases eq_or_ne a n with rfl | hne
    · have h1 : (decide (a + 1 ≤ a)) = false := by simp
      have h2 : (decide (a ≤ a)) = true := decide_eq_true (le_refl a)
      simp only [List.countP_cons, h1, h2]
      simp only [Bool.false_eq_true, if_false, if_true]
      omega
    · have h' : t.contains n = true := by
        simp only [List.contains_cons, Bool.or_eq_true, beq_iff_eq] at h
        rcases h with h | h
        · exact absurd h.symm hne
        · exact h
      have := ih h'
      simp only [List.countP_cons]
      rcases le_or_lt n a with hna | hna
      · have hna' : n + 1 ≤ a := by omega
        have h1 : (decide (n + 1 ≤ a)) = true := decide_eq_true hna'
        have h2 : (decide (n ≤ a)) = true := decide_eq_true hna
        simp only [h1, h2, if_true]
        omega
      · have h1 : (decide (n + 1 ≤ a)) = false := by
          simp only [decide_eq_false_iff_not]; omega
        have h2 : (decide (n ≤ a)) = false := by
          simp only [decide_eq_false_iff_not]; omega
        simp only [h1, h2, Bool.false_eq_true, if_false]
        omega

theorem firstUnusedFrom_spec (keys : List Nat) :
    ∀ (fuel n : Nat),
      keys.countP (fun k => decide (n ≤ k)) < fuel →
      (∀ m, m < n → keys.contains m = true) →
      keys.contains (firstUnusedFrom keys n fuel) = false ∧
        ∀ m, m < firstUnusedFrom keys n fuel → keys.contains m = true := by
  intro fuel
  induction fuel with
  | zero => intro n hcount _; omega
  | succ f ih =>
    intro n hcount hbelow
    simp only [firstUnusedFrom]
    by_cases hc : keys.contains n = true
    · rw [if_pos hc]
      refine ih (n + 1) ?_ ?_
      · have := countP_lt_of_contains keys n hc
        omega
      · intro m hm
        rcases Nat.lt_succ_iff_lt_or_eq.mp hm with hm2 | rfl
        · exact hbelow m hm2
        · exact hc
    · have hc2 : keys.contains n = false := by
        revert hc; cases keys.contains n <;> simp
      rw [if_neg (by rw [hc2]; exact Bool.false_ne_true)]
      exact ⟨hc2, hbelow⟩

theorem firstUnused_spec (keys : List Nat) :
    keys.contains (firstUnused keys) = false ∧
      ∀ m, m < firstUnused keys → keys.contains m = true := by
  apply firstUnusedFrom_spec
  · have : keys.countP (fun k => decide (0 ≤ k)) ≤ keys.length :=
      List.countP_le_length _
    omega
  · intro m hm; omega

/-! ## The database (`data/database.rs`) -/

/-- The four variants of `UpdateEndpoint` (database.rs). -/
inductive EndpointKind where
  | bytes
  | cmdChannel
  | cmdChannelTokio
  | custom

/-- A subscriber endpoint. `fails` abstracts whether the underlying
`write_all`/`send` call returns an error for the command being broadcast;
`Custom` callbacks have no failure path and the flag is ignored for them. -/
structure Endpoint where
  kind : EndpointKind
  fails : Bool

/-- Model of `Database` (database.rs). The runtime-only fields (the
`db_data_file_change_*` timestamps and `command_sender`) are omitted; paths
are strings. -/
structure Database where
  db_file : String
  lib_directory : String
  artists : List (Nat × Artist)
  albums : List (Nat × Album)
  songs : List (Nat × Song)
  covers : List (Nat × DatabaseLocation)
  queue : Queue
  update_endpoints : List Endpoint
  playing : Bool

/-- Model of `Database::add_song_new_nomagic`: scan for the lowest unused song id,
overwrite `song.id` with it, insert, return the id. -/
def Database.add_song_new_nomagic (db : Database) (song : Song) :
    Nat × Database :=
  let key := firstUnused (keysOf db.songs)
  (key, { db with songs := (key, { song with id := key }) :: db.songs })

/-- Model of `Database::add_song_new`: allocate via `nomagic`, then link the new id
into the album's `songs` (when the song names an existing album) or else into
the artist's `singles` (when it names an existing artist). -/
def Database.add_song_new (db : Database) (song : Song) : Nat × Database :=
  let album := song.album
  let artist := song.artist
  let r := db.add_song_new_nomagic song
  let id := r.1
  let db1 := r.2
  match album with
  | some a =>
    if (lookup db1.albums a).isSome then
      let albums1 := updateVal db1.albums a
        (fun al => { al with songs := al.songs ++ [id] })
      (id, { db1 with albums := albums1 })
    else
      match artist with
      | some ar =>
        if (lookup db1.artists ar).isSome then
          let artists1 := updateVal db1.artists ar
            (fun at1 => { at1 with singles := at1.singles ++ [id] })
          (id, { db1 with artists := artists1 })
        else (id, db1)
      | none => (id, db1)
  | none =>
    match artist with
    | some ar =>
      if (lookup db1.artists ar).isSome then
        let artists1 := updateVal db1.artists ar
          (fun at1 => { at1 with singles := at1.singles ++ [id] })
        (id, { db1 with artists := artists1 })
      else (id, db1)
    | none => (id, db1)

/-- Model of `Database::add_artist_new_nomagic`. -/
def Database.add_artist_new_nomagic (db : Database) (artist : Artist) :
    Nat × Database :=
  let key := firstUnused (keysOf db.artists)
  (key, { db with artists := (key, { artist with id := key }) :: db.artists })

/-- Model of `Database::add_artist_new`: just `nomagic` (the function "does nothing
special"). -/
def Database.add_artist_new (db : Database) (artist : Artist) :
    Nat × Database :=
  db.add_artist_new_nomagic artist

/-- Model of `Database::add_album_new_nomagic`. -/
def Database.add_album_new_nomagic (db : Database) (album : Album) :
    Nat × Database :=
  let key := firstUnused (keysOf db.albums)
  (key, { db with albums := (key, { album with id := key }) :: db.albums })

/-- Model of `Database::add_album_new`: allocate via `nomagic`, then link the new id
into the owning artist's `albums` when that artist exists (the link is
silently dropped otherwise). -/
def Database.add_album_new (db : Database) (album : Album) : Nat × Database :=
  let artist := album.artist
  let r := db.add_album_new_nomagic album
  let id := r.1
  let db1 := r.2
  match artist with
  | some ar =>
    if (lookup db1.artists ar).isSome then
      let artists1 := updateVal db1.artists ar
        (fun at1 => { at1 with albums := at1.albums ++ [id] })
      (id, { db1 with artists := artists1 })
    else (id, db1)
  | none => (id, db1)

/-- Model of `Database::update_song`: replace by id; `none` (`Err(())`) when the id is
absent, otherwise the previous value. -/
def Database.update_song (db : Database) (song : Song) :
    Database × Option Song :=
  match lookup db.songs song.id with
  | some old =>
      ({ db with songs := updateVal db.songs song.id (fun _ => song) }, some old)
  | none => (db, none)

/-- Model of `Database::update_album`. -/
def Database.update_album (db : Database) (album : Album) :
    Database × Option Album :=
  match lookup db.albums album.id with
  | some old =>
      ({ db with albums := updateVal db.albums album.id (fun _ => album) },
        some old)
  | none => (db, none)

/-- Model of `Database::update_artist`. -/
def Database.update_artist (db : Database) (artist : Artist) :
    Database × Option Artist :=
  match lookup db.artists artist.id with
  | some old =>
      ({ db with artists := updateVal db.artists artist.id (fun _ => artist) },
        some old)
  | none => (db, none)

/-- Model of `Database::sync`: replace the three catalog mappings wholesale, keyed by
each entity's own id. -/
def Database.sync (db : Database) (artists : List Artist) (albums : List Album)
    (songs : List Song) : Database :=
  { db with
    artists := artists.map (fun v => (v.id, v))
    albums := albums.map (fun v => (v.id, v))
    songs := songs.map (fun v => (v.id, v)) }

/-- Model of `Database::new_clientside`: a client database with empty storage paths
and an empty root folder queue. -/
def Database.new_clientside : Database :=
  { db_file := ""
    lib_directory := ""
    artists := []
    albums := []
    songs := []
    covers := []
    queue := .mk true (.folder 0 .nil [])
    update_endpoints := []
    playing := false }

/-- Model of `Database::save_database`: resolve the target path (the argument, else
`db_file`); when the resolved path is empty (client mode) return `Ok(path)`
before touching the filesystem; otherwise truncate-and-rewrite the snapshot
file. The filesystem effect is the second component: `some p` means the file
at `p` was opened (truncating) and written, `none` means no file was touched.
The function takes `&self` in Rust, so the database itself is never modified;
the open-failure path is not modelled (the claims only concern the empty-path
branch, which returns before any I/O). -/
def Database.save_database (db : Database) (pathArg : Option String) :
    Except Unit String × Option String :=
  let path := pathArg.getD db.db_file
  if path = "" then (.ok path, none)
  else (.ok path, some path)

/-! ## Commands and broadcast (`data/database.rs`)

The `Command` enum itself lives in `server/mod.rs`, which is not part of the
snapshot; the variants below are the ones matched exhaustively by
`Database::apply_command`, plus `InitComplete`, which is modelled from the
spec (§4.4 lists it among the commands; the snapshot's `apply_command` has no
arm for it, so it is treated as a pure marker). -/

inductive Command where
  | resume
  | pause
  | stop
  | nextSong
  | save
  | syncDatabase (artists : List Artist) (albums : List Album)
      (songs : List Song)
  | queueUpdate (path : List Nat) (q : Queue)
  | queueAdd (path : List Nat) (q : Queue)
  | queueInsert (path : List Nat) (pos : Nat) (q : Queue)
  | queueRemove (path : List Nat)
  | queueGoto (path : List Nat)
  | addSong (s : Song)
  | addAlbum (a : Album)
  | addArtist (a : Artist)
  | modifySong (s : Song)
  | modifyAlbum (a : Album)
  | modifyArtist (a : Artist)
  | setLibraryDirectory (d : String)
  | initComplete

/-- The subscriber loop of `Database::broadcast_update`: walk the endpoints
with their indices, lazily noting whether the byte encoding (`to_bytes_vec`)
and the `Arc` wrapper have been produced. Returns the write/send/call log
(one entry per endpoint, in order), the number of `to_bytes_vec` invocations,
and the indices collected for removal (ascending, as the code pushes them). -/
def broadcastLoop (update : Command) :
    List Endpoint → Nat → Bool → Bool →
    List (Nat × Command) × Nat × List Nat
  | [], _, _, _ => ([], 0, [])
  | ep :: rest, i, bytesCached, arcCached =>
    match ep.kind with
    | .bytes =>
        let encHere := if bytesCached then 0 else 1
        let r := broadcastLoop update rest (i + 1) true arcCached
        ((i, update) :: r.1, encHere + r.2.1,
          if ep.fails then i :: r.2.2 else r.2.2)
    | .cmdChannel =>
        let r := broadcastLoop update rest (i + 1) bytesCached true
        ((i, update) :: r.1, r.2.1, if ep.fails then i :: r.2.2 else r.2.2)
    | .cmdChannelTokio =>
        let r := broadcastLoop update rest (i + 1) bytesCached true
        ((i, update) :: r.1, r.2.1, if ep.fails then i :: r.2.2 else r.2.2)
    | .custom =>
        let r := broadcastLoop update rest (i + 1) bytesCached arcCached
        ((i, update) :: r.1, r.2.1, r.2.2)

/-- Model of `for i in remove.into_iter().rev() { self.update_endpoints.remove(i); }` -/
def removeIndicesDesc (eps : List Endpoint) (idxs : List Nat) : List Endpoint :=
  idxs.reverse.foldl (fun acc i => acc.eraseIdx i) eps

/-- Model of `Database::broadcast_update`: run the subscriber loop, then drop the
collected indices (in reverse order) from the registry. Returns the updated
database, the delivery log, and the number of byte encodings performed. -/
def Database.broadcast_update (db : Database) (update : Command) :
    Database × List (Nat × Command) × Nat :=
  let r := broadcastLoop update db.update_endpoints 0 false false
  ({ db with update_endpoints := removeIndicesDesc db.update_endpoints r.2.2 },
    r.1, r.2.1)

/-- The state mutation of `Database::apply_command` (the `match` following the
broadcast). `NextSong` and `QueueGoto` call queue methods whose wrappers
(`Queue::advance_index`, `Queue::set_index`) are not in the snapshot; they are
modelled as running `advance_index_inner` / `set_index_inner` at the root and
discarding the collected actions. `Save` ignores the save result (a failure is
only logged). `InitComplete` is modelled from the spec as a no-op marker. -/
def Database.applyLocal (shuf : List Nat → List Nat) (pick : Nat → Nat)
    (db : Database) : Command → Database
  | .resume => { db with playing := true }
  | .pause => { db with playing := false }
  | .stop => { db with playing := false }
  | .nextSong =>
      { db with queue := (db.queue.advance_index_inner shuf pick []).1 }
  | .save => db
  | .syncDatabase a b c => db.sync a b c
  | .queueUpdate path newData =>
      match db.queue.modifyAt path (fun _ => newData) with
      | some q => { db with queue := q }
      | none => db
  | .queueAdd path newData =>
      match db.queue.modifyAt path (fun v => (v.add_to_end newData).1) with
      | some q => { db with queue := q }
      | none => db
  | .queueInsert path pos newData =>
      match db.queue.modifyAt path (fun v => (v.insert newData pos).1) with
      | some q => { db with queue := q }
      | none => db
  | .queueRemove path => { db with queue := (db.queue.remove_by_index path).1 }
  | .queueGoto path =>
      { db with queue := (db.queue.set_index_inner shuf pick path []).1 }
  | .addSong s => (db.add_song_new s).2
  | .addAlbum a => (db.add_album_new a).2
  | .addArtist a => (db.add_artist_new a).2
  | .modifySong s => (db.update_song s).1
  | .modifyAlbum a => (db.update_album a).1
  | .modifyArtist a => (db.update_artist a).1
  | .setLibraryDirectory d => { db with lib_directory := d }
  | .initComplete => db

/-- Model of `Database::apply_command`: broadcast the command to all subscribers first,
then mutate local state. Returns the resulting database, the delivery log and
the encoding count of the broadcast. -/
def Database.apply_command (shuf : List Nat → List Nat) (pick : Nat → Nat)
    (db : Database) (command : Command) :
    Database × List (Nat × Command) × Nat :=
  let r := db.broadcast_update command
  (Database.applyLocal shuf pick r.1 command, r.2)

/-- Model of `Database::init_connection`: the sequence of commands written to a newly
accepted main connection, in order. The command byte serialization
(server/mod.rs) is not in the snapshot, so the model records the command
sequence itself. -/
def Database.init_connection (db : Database) : List Command :=
  [Command.syncDatabase (db.artists.map (·.2)) (db.albums.map (·.2))
      (db.songs.map (·.2)),
    Command.queueUpdate [] db.queue] ++
  (if db.playing then [Command.resume] else []) ++
  [Command.setLibraryDirectory db.lib_directory]

/-! ## Get channel (`server/get.rs`) -/

/-- The character loop of `con_get_decode_line`: `\n` → newline, `\r` →
carriage return, `\\` → backslash, a backslash before any other character
drops the backslash, a trailing lone backslash is dropped. -/
def decodeChars : List Char → List Char
  | [] => []
  | '\\' :: rest =>
    match rest with
    | [] => []
    | 'n' :: t => '\n' :: decodeChars t
    | 'r' :: t => '\r' :: decodeChars t
    | '\\' :: t => '\\' :: decodeChars t
    | ch :: t => ch :: decodeChars t
  | ch :: rest => ch :: decodeChars rest

/-- Model of `con_get_decode_line`. -/
def con_get_decode_line (line : String) : String :=
  ⟨decodeChars line.data⟩

/-- Split a character sequence at every newline (the splitting step of
`str::lines`); an empty input yields one empty segment, like `split`. -/
def splitNL : List Char → List (List Char)
  | [] => [[]]
  | c :: rest =>
    if c = '\n' then [] :: splitNL rest
    else
      match splitNL rest with
      | [] => [[c]]
      | l :: ls => (c :: l) :: ls

/-- Strip one trailing carriage return, as `str::lines` does per line. -/
def stripCR (l : List Char) : List Char :=
  match l.reverse with
  | '\r' :: t => t.reverse
  | _ => l

/-- Model of `str::lines`: split on `'\n'`, with no empty final line for a trailing
newline, and any `'\r'` immediately before a `'\n'` stripped. -/
def rustLines (s : String) : List String :=
  let parts := splitNL s.data
  let parts :=
    match parts.getLast? with
    | some [] => parts.dropLast
    | _ => parts
  parts.map (fun l => ⟨stripCR l⟩)

/-- Model of `str::parse::<u64>`: optional leading `'+'`, then one or more ASCII
digits, rejecting values outside the u64 range. -/
def parseU64? (s : String) : Option Nat :=
  let l :=
    match s.data with
    | '+' :: t => t
    | l => l
  if l ≠ [] ∧ l.all Char.isDigit then
    let v := l.foldl (fun acc c => acc * 10 + (c.toNat - 48)) 0
    if v < 2 ^ 64 then some v else none
  else none

/-- Model of `Database::get_path`: resolve a `DatabaseLocation` against the library
root. Path joining is modelled as string concatenation with a separator. -/
def Database.get_path (db : Database) (loc : DatabaseLocation) : String :=
  db.lib_directory ++ "/" ++ loc.rel_path

/-- Something the get-channel handler writes back: a text line (`writeln!`,
newline implied) or a raw byte block (`write_all`). -/
inductive GetOut where
  | line (s : String)
  | raw (bytes : List Nat)

/-- One iteration of the read loop of `handle_one_connection_as_get`, given
the line read from the socket: decode it, split into request lines, dispatch
on the verb. Returns the responses written and whether the loop continues
(`false` = the handler returns and the channel closes). The `covers()`
accessor and `DatabaseLocation::get_bytes` are not in the snapshot;
modelled from the spec: cover bytes are read from the file at
`get_path(location)`, represented by the filesystem oracle `fs` (`none` =
the read fails). -/
def handleGetLine (fs : String → Option (List Nat)) (db : Database)
    (line : String) : List GetOut × Bool :=
  if line = "" then ([], false)
  else
    let request := con_get_decode_line line
    match rustLines request with
    | [] => ([], true)
    | verb :: args =>
      if verb = "cover-bytes" then
        match args with
        | idStr :: _ =>
          match parseU64? idStr with
          | some id =>
            match lookup db.covers id with
            | some cover =>
              match fs (db.get_path cover) with
              | some bytes =>
                  ([.line ("len: " ++ toString bytes.length), .raw bytes], true)
              | none => ([.line "no data"], true)
            | none => ([.line "no cover"], true)
          | none => ([.line "no cover"], true)
        | [] => ([.line "no cover"], true)
      else ([], true)

/-! ## Mapping lemmas -/

theorem lookup_cons_self {α : Type} (m : List (Nat × α)) (k : Nat) (v : α) :
    lookup ((k, v) :: m) k = some v := by
  simp [lookup, List.find?]

theorem lookup_updateVal_self {α : Type} (m : List (Nat × α)) (k : Nat)
    (f : α → α) :
    lookup (updateVal m k f) k = (lookup m k).map f := by
  induction m with
  | nil => simp [lookup, updateVal]
  | cons p t ih =>
    obtain ⟨k1, v1⟩ := p
    by_cases h : k1 = k
    · subst h
      simp [lookup, updateVal, List.find?]
    · have hb : (k1 == k) = false := by simpa using h
      simp only [updateVal, List.map_cons, if_neg h] at *
      simp only [lookup, List.find?, hb] at *
      exact ih

theorem keysOf_updateVal {α : Type} (m : List (Nat × α)) (k : Nat)
    (f : α → α) : keysOf (updateVal m k f) = keysOf m := by
  induction m with
  | nil => rfl
  | cons p t ih =>
    obtain ⟨k1, v1⟩ := p
    by_cases h : k1 = k <;> simp [keysOf, updateVal, if_pos, if_neg, h] at * <;>
      simpa [keysOf, updateVal] using ih

/-! ## Structure of the `add_*_new` results -/

theorem add_song_new_parts (db : Database) (s : Song) :
    (db.add_song_new s).1 = firstUnused (keysOf db.songs) ∧
    (db.add_song_new s).2.songs =
      (firstUnused (keysOf db.songs),
        { s with id := firstUnused (keysOf db.songs) }) :: db.songs ∧
    (db.add_song_new s).2.update_endpoints = db.update_endpoints := by
  simp only [Database.add_song_new, Database.add_song_new_nomagic]
  split <;> (try split) <;> (try split) <;> (try split) <;> simp

theorem add_album_new_parts (db : Database) (al : Album) :
    (db.add_album_new al).1 = firstUnused (keysOf db.albums) ∧
    (db.add_album_new al).2.albums =
      (firstUnused (keysOf db.albums),
        { al with id := firstUnused (keysOf db.albums) }) :: db.albums ∧
    (db.add_album_new al).2.update_endpoints = db.update_endpoints := by
  simp only [Database.add_album_new, Database.add_album_new_nomagic]
  split <;> (try split) <;> simp

theorem add_artist_new_parts (db : Database) (ar : Artist) :
    (db.add_artist_new ar).1 = firstUnused (keysOf db.artists) ∧
    (db.add_artist_new ar).2.artists =
      (firstUnused (keysOf db.artists),
        { ar with id := firstUnused (keysOf db.artists) }) :: db.artists ∧
    (db.add_artist_new ar).2.update_endpoints = db.update_endpoints := by
  simp [Database.add_artist_new, Database.add_artist_new_nomagic]

/-- C2. Id allocation: for every database state, `add_song_new`,
`add_album_new` and `add_artist_new` return an id that is not a key of the
owning mapping before the call and equals the smallest non-negative integer
not already used as a key there, and the entity is stored under that id with
its `id` field overwritten to it. -/
theorem C2_id_allocation (db : Database) (s : Song) (al : Album)
    (ar : Artist) :
    ((keysOf db.songs).contains (db.add_song_new s).1 = false ∧
      (∀ m, m < (db.add_song_new s).1 →
        (keysOf db.songs).contains m = true) ∧
      lookup (db.add_song_new s).2.songs (db.add_song_new s).1 =
        some { s with id := (db.add_song_new s).1 }) ∧
    ((keysOf db.albums).contains (db.add_album_new al).1 = false ∧
      (∀ m, m < (db.add_album_new al).1 →
        (keysOf db.albums).contains m = true) ∧
      lookup (db.add_album_new al).2.albums (db.add_album_new al).1 =
        some { al with id := (db.add_album_new al).1 }) ∧
    ((keysOf db.artists).contains (db.add_artist_new ar).1 = false ∧
      (∀ m, m < (db.add_artist_new ar).1 →
        (keysOf db.artists).contains m = true) ∧
      lookup (db.add_artist_new ar).2.artists (db.add_artist_new ar).1 =
        some { ar with id := (db.add_artist_new ar).1 }) := by
  obtain ⟨hs1, hs2, _⟩ := add_song_new_parts db s
  obtain ⟨hb1, hb2, _⟩ := add_album_new_parts db al
  obtain ⟨hr1, hr2, _⟩ := add_artist_new_parts db ar
  refine ⟨⟨?_, ?_, ?_⟩, ⟨?_, ?_, ?_⟩, ⟨?_, ?_, ?_⟩⟩
  · rw [hs1]; exact (firstUnused_spec _).1
  · rw [hs1]; exact (firstUnused_spec _).2
  · rw [hs2, hs1]; exact lookup_cons_self _ _ _
  · rw [hb1]; exact (firstUnused_spec _).1
  · rw [hb1]; exact (firstUnused_spec _).2
  · rw [hb2, hb1]; exact lookup_cons_self _ _ _
  · rw [hr1]; exact (firstUnused_spec _).1
  · rw [hr1]; exact (firstUnused_spec _).2
  · rw [hr2, hr1]; exact lookup_cons_self _ _ _

theorem add_song_new_album_link (db : Database) (s : Song) (a : Nat)
    (h : s.album = some a) (h2 : (lookup db.albums a).isSome = true) :
    (db.add_song_new s).2.albums =
      updateVal db.albums a (fun al =>
        { al with songs := al.songs ++ [firstUnused (keysOf db.songs)] }) := by
  simp only [Database.add_song_new, Database.add_song_new_nomagic, h]
  rw [if_pos h2]

theorem add_song_new_singles_link (db : Database) (s : Song) (r : Nat)
    (halb : s.album = none ∨ ∃ a, s.album = some a ∧ lookup db.albums a = none)
    (hr : s.artist = some r) (h2 : (lookup db.artists r).isSome = true) :
    (db.add_song_new s).2.artists =
      updateVal db.artists r (fun a1 =>
        { a1 with singles := a1.singles ++ [firstUnused (keysOf db.songs)] }) := by
  rcases halb with h | ⟨a, hsome, hno⟩
  · simp only [Database.add_song_new, Database.add_song_new_nomagic, h, hr]
    rw [if_pos h2]
  · simp only [Database.add_song_new, Database.add_song_new_nomagic, hsome, hr]
    rw [if_neg (by simp [hno]), if_pos h2]

theorem add_album_new_artist_link (db : Database) (al : Album) (r : Nat)
    (h : al.artist = some r) (h2 : (lookup db.artists r).isSome = true) :
    (db.add_album_new al).2.artists =
      updateVal db.artists r (fun a1 =>
        { a1 with albums := a1.albums ++ [firstUnused (keysOf db.albums)] }) := by
  simp only [Database.add_album_new, Database.add_album_new_nomagic, h]
  rw [if_pos h2]

theorem add_album_new_no_link (db : Database) (al : Album)
    (h : al.artist = none ∨
      ∃ r, al.artist = some r ∧ lookup db.artists r = none) :
    (db.add_album_new al).2.artists = db.artists := by
  rcases h with h | ⟨r, hsome, hno⟩
  · simp [Database.add_album_new, Database.add_album_new_nomagic, h]
  · simp only [Database.add_album_new, Database.add_album_new_nomagic, hsome]
    rw [if_neg (by simp [hno])]

/-- The E1 seed scenario: an artist, an album owned by it, a song on that
album, added to a fresh client database. -/
def e1Artist : Artist :=
  { id := 99, name := "A", cover := none, albums := [], singles := [],
    general := [] }

def e1Album : Album :=
  { id := 99, artist := some 0, name := "X", cover := none, songs := [],
    general := [] }

def e1Song : Song :=
  { id := 99, location := ⟨"t.mp3"⟩, title := "t", album := some 0,
    artist := some 0, more_artists := [], cover := none, general := [] }

def e1Db : Database :=
  (((Database.new_clientside.add_artist_new e1Artist).2.add_album_new
    e1Album).2.add_song_new e1Song).2

/-- C3. Parent-link maintenance: `add_song_new` appends the new id to the
existing album's `songs`, or else (album absent or unknown) to the existing
artist's `singles`; `add_album_new` appends the new id to the owning artist's
`albums` when that artist exists and silently drops the link otherwise; and
the E1 scenario yields `artists[0].albums == [0]`, `albums[0].songs == [0]`,
`artists[0].singles == []`. -/
theorem C3_parent_links :
    (∀ (db : Database) (s : Song) (a : Nat) (alb : Album),
      s.album = some a → lookup db.albums a = some alb →
      lookup (db.add_song_new s).2.albums a =
        some { alb with songs := alb.songs ++ [(db.add_song_new s).1] }) ∧
    (∀ (db : Database) (s : Song) (r : Nat) (art : Artist),
      (s.album = none ∨ ∃ a, s.album = some a ∧ lookup db.albums a = none) →
      s.artist = some r → lookup db.artists r = some art →
      lookup (db.add_song_new s).2.artists r =
        some { art with singles := art.singles ++ [(db.add_song_new s).1] }) ∧
    (∀ (db : Database) (al : Album) (r : Nat) (art : Artist),
      al.artist = some r → lookup db.artists r = some art →
      lookup (db.add_album_new al).2.artists r =
        some { art with albums := art.albums ++ [(db.add_album_new al).1] }) ∧
    (∀ (db : Database) (al : Album),
      (al.artist = none ∨ ∃ r, al.artist = some r ∧ lookup db.artists r = none) →
      (db.add_album_new al).2.artists = db.artists) ∧
    ((Database.new_clientside.add_artist_new e1Artist).1 = 0 ∧
      ((Database.new_clientside.add_artist_new e1Artist).2.add_album_new
        e1Album).1 = 0 ∧
      (((Database.new_clientside.add_artist_new e1Artist).2.add_album_new
        e1Album).2.add_song_new e1Song).1 = 0 ∧
      (lookup e1Db.artists 0).map Artist.albums = some [0] ∧
      (lookup e1Db.albums 0).map Album.songs = some [0] ∧
      (lookup e1Db.artists 0).map Artist.singles = some ([] : List Nat)) := by
  refine ⟨?_, ?_, ?_, fun db al h => add_album_new_no_link db al h, ?_⟩
  · intro db s a alb hs halb
    rw [add_song_new_album_link db s a hs (by simp [halb]),
      (add_song_new_parts db s).1, lookup_updateVal_self, halb]
    rfl
  · intro db s r art halb hr hart
    rw [add_song_new_singles_link db s r halb hr (by simp [hart]),
      (add_song_new_parts db s).1, lookup_updateVal_self, hart]
    rfl
  · intro db al r art hr hart
    rw [add_album_new_artist_link db al r hr (by simp [hart]),
      (add_album_new_parts db al).1, lookup_updateVal_self, hart]
    rfl
  · refine ⟨by decide, by decide, by decide, ?_, ?_, ?_⟩ <;> decide

/-- Concrete catalog values for witness instantiations. -/
def songW : Song :=
  { id := 77, location := ⟨"x.mp3"⟩, title := "x", album := none,
    artist := none, more_artists := [], cover := none, general := [] }

def albumW : Album :=
  { id := 77, artist := none, name := "W", cover := none, songs := [],
    general := [] }

def artistW : Artist :=
  { id := 77, name := "W", cover := none, albums := [], singles := [],
    general := [] }

def dbW : Database :=
  { Database.new_clientside with
    songs := [(0, songW)]
    albums := [(0, albumW)]
    artists := [(0, artistW)] }

theorem C2_id_allocation_witness :
    (keysOf dbW.songs).contains (dbW.add_song_new songW).1 = false ∧
      0 < (dbW.add_song_new songW).1 ∧
      (keysOf dbW.songs).contains 0 = true :=
  ⟨(C2_id_allocation dbW songW albumW artistW).1.1, by decide,
    (C2_id_allocation dbW songW albumW artistW).1.2.1 0 (by decide)⟩

/-- A song naming the existing album 0; feeds the C3 witness. -/
def songWA : Song := { songW with album := some 0 }

theorem C3_parent_links_witness :
    lookup (dbW.add_song_new songWA).2.albums 0 =
      some { albumW with songs := albumW.songs ++ [(dbW.add_song_new songWA).1] } :=
  C3_parent_links.1 dbW songWA 0 albumW rfl rfl

/-! ## C4: folder advancement -/

/-- Iterate `advance_index_inner` from the root `k` times, collecting the
returned booleans in call order. -/
def advanceSeq (shuf : List Nat → List Nat) (pick : Nat → Nat) (q : Queue) :
    Nat → Queue × List Bool
  | 0 => (q, [])
  | n + 1 =>
      let r := advanceSeq shuf pick q n
      let s := r.1.advance_index_inner shuf pick []
      (s.1, r.2 ++ [s.2.1])

/-- The cursor of a folder node. -/
def folderCursor : Queue → Option Nat
  | .mk _ (.folder i _ _) => some i
  | _ => none

/-- A three-song folder with cursor 0 (the claim's `Folder([A,B,C], 0)`). -/
def fold3 (a b c : Nat) (nm : List Nat) : Queue :=
  .mk true (.folder 0
    (.cons (.mk true (.song a))
      (.cons (.mk true (.song b)) (.cons (.mk true (.song c)) .nil))) nm)

/-- The E3 start state: `Folder(0, [Song(0), Song(1), Song(2)])`. -/
def e3Start : Queue := fold3 0 1 2 []

/-- E3 after `insert(Song(9), 0)` at the root. -/
def e3Inserted : Queue := (e3Start.insert (.mk true (.song 9)) 0).1

theorem C4_counterexample :
    (advanceSeq id (fun _ => 0) e3Inserted 4).2 = [true, true, false, true] ∧
    folderCursor (advanceSeq id (fun _ => 0) e3Inserted 4).1 = some 1 ∧
    ¬ ((advanceSeq id (fun _ => 0) e3Inserted 4).2 =
        [true, true, true, false] ∧
      folderCursor (advanceSeq id (fun _ => 0) e3Inserted 4).1 = some 0) := by
  decide

/-- The E3 children after the insert: `[Song(9), Song(0), Song(1), Song(2)]`,
cursor 1. -/
def e3Expected : Queue :=
  .mk true (.folder 1
    (.cons (.mk true (.song 9))
      (.cons (.mk true (.song 0))
        (.cons (.mk true (.song 1))
          (.cons (.mk true (.song 2)) .nil)))) [])

/-- C4, amended. Advancing `Folder([A,B,C], cursor = 0)` `k ≤ 2` times
yields cursor `min(k, 2)` with every call returning `true`; the third call —
the one that would exceed the last child — returns `false` and resets the
cursor to 0. In the E3 scenario, `insert(Song(9), 0)` bumps the cursor to 1
and gives children `[Song(9), Song(0), Song(1), Song(2)]`; four
`advance_index` calls then return `true, true, false, true` (the cursor,
starting at 1 in a four-child folder, hits the end on the third call), leaving
the cursor at 1. -/
theorem C4_folder_advancement :
    (∀ (shuf : List Nat → List Nat) (pick : Nat → Nat) (a b c : Nat)
      (nm : List Nat) (k : Nat), k ≤ 2 →
      (advanceSeq shuf pick (fold3 a b c nm) k).2 = List.replicate k true ∧
      folderCursor (advanceSeq shuf pick (fold3 a b c nm) k).1 =
        some (min k 2)) ∧
    (∀ (shuf : List Nat → List Nat) (pick : Nat → Nat) (a b c : Nat)
      (nm : List Nat),
      (advanceSeq shuf pick (fold3 a b c nm) 3).2 = [true, true, false] ∧
      folderCursor (advanceSeq shuf pick (fold3 a b c nm) 3).1 = some 0) ∧
    ((e3Start.insert (.mk true (.song 9)) 0).2 = true ∧
      e3Inserted = e3Expected) ∧
    (∀ (shuf : List Nat → List Nat) (pick : Nat → Nat),
      (advanceSeq shuf pick e3Inserted 4).2 = [true, true, false, true] ∧
      folderCursor (advanceSeq shuf pick e3Inserted 4).1 = some 1) := by
  refine ⟨?_, ?_, ⟨by decide, rfl⟩, ?_⟩
  · intro shuf pick a b c nm k hk
    interval_cases k <;> exact ⟨rfl, rfl⟩
  · intro shuf pick a b c nm
    exact ⟨rfl, rfl⟩
  · intro shuf pick
    exact ⟨rfl, rfl⟩

theorem C4_folder_advancement_witness :
    (advanceSeq id (fun _ => 0) (fold3 10 11 12 []) 2).2 =
        List.replicate 2 true ∧
      folderCursor (advanceSeq id (fun _ => 0) (fold3 10 11 12 []) 2).1 =
        some (min 2 2) :=
  C4_folder_advancement.1 id (fun _ => 0) 10 11 12 [] 2 (by decide)

/-! ## C5: shuffle re-initialisation -/

theorem perm_snoc {α : Type} (a : α) (l : List α) :
    (l ++ [a]).Perm (a :: l) := by
  induction l with
  | nil => exact List.Perm.refl _
  | cons b t ih => exact (List.Perm.cons b ih).trans (List.Perm.swap a b t)

theorem cons_filter_perm {α : Type} [DecidableEq α] (a : α) :
    ∀ (l : List α), l.Nodup → a ∈ l →
      (a :: l.filter (· ≠ a)).Perm l := by
  intro l
  induction l with
  | nil => intro _ h; cases h
  | cons b t ih =>
    intro hnd hmem
    rcases eq_or_ne b a with rfl | hne
    · have hnotin : b ∉ t := (List.nodup_cons.mp hnd).1
      have hfil : t.filter (· ≠ b) = t :=
        List.filter_eq_self.mpr (fun x hx => by
          have hxb : x ≠ b := fun hxa => hnotin (hxa ▸ hx)
          simpa using hxb)
      have hfil2 : (b :: t).filter (· ≠ b) = t := by
        rw [List.filter_cons]
        have hc : (decide (b ≠ b) : Bool) = false := by simp
        rw [hc]
        simpa using hfil
      rw [hfil2]
    · have hmem2 : a ∈ t := by
        rcases List.mem_cons.mp hmem with rfl | h
        · exact absurd rfl hne
        · exact h
      have hnd2 : t.Nodup := (List.nodup_cons.mp hnd).2
      have hfil2 : (b :: t).filter (· ≠ a) = b :: t.filter (· ≠ a) := by
        rw [List.filter_cons]
        simp [hne]
      rw [hfil2]
      exact (List.Perm.swap b a _).trans (List.Perm.cons b (ih hnd2 hmem2))

/-- C5. Shuffle init: for every `Shuffle(current, map, elems, next)` with
`next < elems.len()`, and for every possible outcome of the random shuffle
(`shuf` ranging over permutations) and of `gen_range` (`pick`), `init` emits
exactly one `SetShuffle(path, new_map, new_next)` action whose `new_map` is a
permutation of `0 .. elems.len()` starting with the previous `next`, and whose
`new_next` lies in `[0, elems.len())`; for empty `elems`, `new_next` is 0. -/
theorem C5_shuffle_init (shuf : List Nat → List Nat) (pick : Nat → Nat)
    (e : Bool) (current next : Nat) (map : List Nat) (elems : QueueList)
    (path : List Nat)
    (hshuf : (shuf ((List.range elems.length).filter (· ≠ next))).Perm
      ((List.range elems.length).filter (· ≠ next)))
    (hpick : 0 < elems.length → pick elems.length < elems.length) :
    ∃ newMap newNext,
      (Queue.init shuf pick (.mk e (.shuffle current map elems next)) path).2 =
        [.setShuffle path newMap newNext] ∧
      (next < elems.length →
        newMap.Perm (List.range elems.length) ∧ newMap.head? = some next) ∧
      (0 < elems.length → newNext < elems.length) ∧
      (elems.length = 0 → newNext = 0) := by
  refine ⟨_, _, rfl, ?_, ?_, ?_⟩
  · intro hlt
    cases hsf : shuf ((List.range elems.length).filter (· ≠ next)) with
    | nil =>
      have hF : (List.range elems.length).filter (· ≠ next) = [] :=
        List.perm_nil.mp (hsf ▸ hshuf).symm
      have hall : ∀ x ∈ List.range elems.length, x = next := by
        intro x hx
        by_contra hne
        have hmemf : x ∈ (List.range elems.length).filter (· ≠ next) :=
          List.mem_filter.mpr ⟨hx, by simpa using hne⟩
        rw [hF] at hmemf
        cases hmemf
      have hnext0 : next = 0 :=
        (hall 0 (List.mem_range.mpr (by omega))).symm
      have hlen1 : elems.length = 1 := by
        by_contra hne1
        have ha : (0 : Nat) = next := hall 0 (List.mem_range.mpr (by omega))
        have hb : (1 : Nat) = next := hall 1 (List.mem_range.mpr (by omega))
        omega
      subst hnext0
      rw [hlen1]
      rw [if_pos (by omega)]
      exact ⟨by decide, rfl⟩
    | cons f rest =>
      have h1 : (rest ++ [f]).Perm (f :: rest) := perm_snoc f rest
      have h2 : (f :: rest).Perm
          ((List.range elems.length).filter (· ≠ next)) := hsf ▸ hshuf
      have h3 : (next :: (List.range elems.length).filter (· ≠ next)).Perm
          (List.range elems.length) :=
        cons_filter_perm next _ (List.nodup_range _) (List.mem_range.mpr hlt)
      refine ⟨?_, rfl⟩
      exact ((List.Perm.cons next h1).trans (List.Perm.cons next h2)).trans h3
  · intro hpos
    rw [if_neg (by omega)]
    exact hpick hpos
  · intro hzero
    rw [if_pos hzero]

/-- Two song elements, for the C5 witness. -/
def elemsW : QueueList :=
  .cons (.mk true (.song 1)) (.cons (.mk true (.song 2)) .nil)

theorem C5_shuffle_init_witness :
    ∃ newMap newNext,
      (Queue.init id (fun _ => 0)
        (.mk true (.shuffle 0 [1, 0] elemsW 0)) []).2 =
        [.setShuffle [] newMap newNext] ∧
      (0 < elemsW.length →
        newMap.Perm (List.range elemsW.length) ∧ newMap.head? = some 0) ∧
      (0 < elemsW.length → newNext < elemsW.length) ∧
      (elemsW.length = 0 → newNext = 0) :=
  C5_shuffle_init id (fun _ => 0) true 0 0 [1, 0] elemsW []
    (List.Perm.refl _) (fun _ => by decide)

/-! ## C6: random buffer refills -/

theorem initAt_length (shuf : List Nat → List Nat) (pick : Nat → Nat) :
    ∀ (i : Nat) (cs : QueueList) (path : List Nat) (cs1 : QueueList)
      (acts : List QueueAction),
      initAt shuf pick cs i path = some (cs1, acts) →
      cs1.length = cs.length := by
  intro i
  induction i with
  | zero =>
    intro cs path cs1 acts h
    cases cs with
    | nil => simp [initAt] at h
    | cons hd t =>
      simp only [initAt, Option.some.injEq, Prod.mk.injEq] at h
      obtain ⟨h1, _⟩ := h
      rw [← h1]
      rfl
  | succ n ih =>
    intro cs path cs1 acts h
    cases cs with
    | nil => simp [initAt] at h
    | cons hd t =>
      simp only [initAt] at h
      cases heq : initAt shuf pick t n path with
      | none => rw [heq] at h; cases h
      | some out =>
        rw [heq] at h
        obtain ⟨t1, acts1⟩ := out
        simp only [Option.some.injEq, Prod.mk.injEq] at h
        obtain ⟨h1, _⟩ := h
        rw [← h1]
        simp only [QueueList.length]
        rw [ih t path t1 acts1 heq]

theorem initAt_isSome (shuf : List Nat → List Nat) (pick : Nat → Nat) :
    ∀ (i : Nat) (cs : QueueList) (path : List Nat), i < cs.length →
      (initAt shuf pick cs i path).isSome = true := by
  intro i
  induction i with
  | zero =>
    intro cs path h
    cases cs with
    | nil => simp [QueueList.length] at h
    | cons hd t => simp [initAt]
  | succ n ih =>
    intro cs path h
    cases cs with
    | nil => simp [QueueList.length] at h
    | cons hd t =>
      simp only [QueueList.length] at h
      have := ih t path (by omega)
      simp only [initAt]
      cases heq : initAt shuf pick t n path with
      | none => rw [heq] at this; cases this
      | some out => simp

theorem advanceAt_length (shuf : List Nat → List Nat) (pick : Nat → Nat) :
    ∀ (i : Nat) (cs : QueueList) (path : List Nat) (cs1 : QueueList)
      (b : Bool) (acts : List QueueAction),
      advanceAt shuf pick cs i path = some (cs1, b, acts) →
      cs1.length = cs.length := by
  intro i
  induction i with
  | zero =>
    intro cs path cs1 b acts h
    cases cs with
    | nil => simp [advanceAt] at h
    | cons hd t =>
      simp only [advanceAt, Option.some.injEq, Prod.mk.injEq] at h
      obtain ⟨h1, _⟩ := h
      rw [← h1]
      rfl
  | succ n ih =>
    intro cs path cs1 b acts h
    cases cs with
    | nil => simp [advanceAt] at h
    | cons hd t =>
      simp only [advanceAt] at h
      cases heq : advanceAt shuf pick t n path with
      | none => rw [heq] at h; cases h
      | some out =>
        rw [heq] at h
        obtain ⟨t1, b1, acts1⟩ := out
        simp only [Option.some.injEq, Prod.mk.injEq] at h
        obtain ⟨h1, _⟩ := h
        rw [← h1]
        simp only [QueueList.length]
        rw [ih t path t1 b1 acts1 heq]

theorem advanceAt_isSome (shuf : List Nat → List Nat) (pick : Nat → Nat) :
    ∀ (i : Nat) (cs : QueueList) (path : List Nat), i < cs.length →
      (advanceAt shuf pick cs i path).isSome = true := by
  intro i
  induction i with
  | zero =>
    intro cs path h
    cases cs with
    | nil => simp [QueueList.length] at h
    | cons hd t => simp [advanceAt]
  | succ n ih =>
    intro cs path h
    cases cs with
    | nil => simp [QueueList.length] at h
    | cons hd t =>
      simp only [QueueList.length] at h
      have := ih t path (by omega)
      simp only [advanceAt]
      cases heq : advanceAt shuf pick t n path with
      | none => rw [heq] at this; cases this
      | some out => simp

theorem C6_counterexample :
    (Queue.init id (fun _ => 0)
      (.mk true (.random (.cons (.mk true (.song 0)) .nil))) []).2 = [] ∧
    (Queue.init id (fun _ => 0)
      (.mk true (.random (.cons (.mk true (.song 0)) .nil))) []).1 =
      .mk true (.random (.cons (.mk true (.song 0)) .nil)) ∧
    ¬ ((∃ buf1,
        (Queue.init id (fun _ => 0)
          (.mk true (.random (.cons (.mk true (.song 0)) .nil))) []).1 =
          .mk true (.random buf1) ∧ 2 ≤ buf1.length) ∨
      QueueAction.addRandomSong [] ∈
        (Queue.init id (fun _ => 0)
          (.mk true (.random (.cons (.mk true (.song 0)) .nil))) []).2) := by
  refine ⟨rfl, rfl, ?_⟩
  intro h
  rcases h with ⟨buf1, hq, hlen⟩ | hmem
  · have hq2 : Queue.mk true (.random (.cons (.mk true (.song 0)) .nil)) =
        .mk true (.random buf1) := hq
    injection hq2 with _ hc
    injection hc with hb
    rw [← hb] at hlen
    simp [QueueList.length] at hlen
  · have hmem2 : QueueAction.addRandomSong [] ∈ ([] : List QueueAction) := hmem
    cases hmem2

/-- C6, amended. Random buffer invariant, as the code behaves: `init` on
an empty buffer emits exactly two `AddRandomSong` actions for the node's path;
`init` on a buffer of at least two items leaves the buffer length unchanged
(still ≥ 2); and after any `advance_index_inner` on a buffer that did not hold
exactly one item, either the buffer holds at least 2 items or an
`AddRandomSong` action for the node's path is among the emitted actions. A
buffer holding exactly one item before `init` emits nothing and stays below 2
(see the counterexample). -/
theorem C6_random_buffer (shuf : List Nat → List Nat) (pick : Nat → Nat)
    (e : Bool) (buf : QueueList) (path : List Nat) :
    (buf.length = 0 →
      (Queue.init shuf pick (.mk e (.random buf)) path).2 =
        [.addRandomSong path, .addRandomSong path]) ∧
    (2 ≤ buf.length →
      ∃ buf1, (Queue.init shuf pick (.mk e (.random buf)) path).1 =
          .mk e (.random buf1) ∧ 2 ≤ buf1.length) ∧
    (buf.length ≠ 1 →
      (∃ buf1,
        (Queue.advance_index_inner shuf pick (.mk e (.random buf)) path).1 =
          .mk e (.random buf1) ∧ 2 ≤ buf1.length) ∨
      QueueAction.addRandomSong path ∈
        (Queue.advance_index_inner shuf pick (.mk e (.random buf)) path).2.2) := by
  refine ⟨?_, ?_, ?_⟩
  · intro h0
    cases buf with
    | nil => rfl
    | cons hd t => simp [QueueList.length] at h0
  · intro h2
    have hne : ¬ buf.length = 0 := by omega
    have hlt : buf.length - 2 < buf.length := by omega
    have hsome := initAt_isSome shuf pick (buf.length - 2) buf path hlt
    cases heq : initAt shuf pick buf (buf.length - 2) path with
    | none => rw [heq] at hsome; cases hsome
    | some out =>
      obtain ⟨buf1, acts1⟩ := out
      refine ⟨buf1, ?_, ?_⟩
      · simp only [Queue.init, heq]
      · rw [initAt_length shuf pick _ _ _ _ _ heq]
        exact h2
  · intro hne1
    rcases Nat.lt_or_ge buf.length 2 with hlt2 | hge2
    · have h0 : buf.length = 0 := by omega
      cases buf with
      | cons hd t => simp [QueueList.length] at h0
      | nil =>
        right
        simp [Queue.advance_index_inner, advanceAt, initAt, QueueList.length,
          QueueList.removeAt]
    · have hlt : buf.length - 2 < buf.length := by omega
      have hsome := advanceAt_isSome shuf pick (buf.length - 2) buf
        (path ++ [buf.length - 2]) hlt
      cases heq : advanceAt shuf pick buf (buf.length - 2)
          (path ++ [buf.length - 2]) with
      | none => rw [heq] at hsome; cases hsome
      | some out =>
        obtain ⟨buf1, b, acts⟩ := out
        have hlen1 : buf1.length = buf.length :=
          advanceAt_length shuf pick _ _ _ _ _ _ heq
        cases b with
        | true =>
          left
          refine ⟨buf1, ?_, by omega⟩
          simp only [Queue.advance_index_inner, heq]
        | false =>
          right
          simp only [Queue.advance_index_inner, heq]
          cases hinit : initAt shuf pick (if 2 ≤ buf1.length
              then buf1.removeAt 0 else buf1)
              ((if 2 ≤ buf1.length then buf1.removeAt 0 else buf1).length - 1)
              (path ++ [(if 2 ≤ buf1.length then buf1.removeAt 0
                else buf1).length - 1]) with
          | none => simp
          | some out2 =>
            obtain ⟨buf2, acts2⟩ := out2
            simp

theorem C6_random_buffer_witness :
    (Queue.init id (fun _ => 0) (.mk true (.random .nil)) [7]).2 =
      [.addRandomSong [7], .addRandomSong [7]] :=
  (C6_random_buffer id (fun _ => 0) true .nil [7]).1 rfl

/-! ## C7: broadcast in apply_command -/

/-- An endpoint survives a broadcast exactly when it is a `Custom` callback
(no failure path) or its write/send succeeded. -/
def epSurvives (ep : Endpoint) : Bool :=
  match ep.kind with
  | .custom => true
  | _ => !ep.fails

/-- The removal indices the subscriber loop collects, relative to the start of
the list. -/
def failIdxs : List Endpoint → List Nat
  | [] => []
  | ep :: rest =>
      if epSurvives ep then (failIdxs rest).map (· + 1)
      else 0 :: (failIdxs rest).map (· + 1)

theorem broadcastLoop_log (u : Command) :
    ∀ (eps : List Endpoint) (i : Nat) (bc ac : Bool),
      (broadcastLoop u eps i bc ac).1 =
        (List.range eps.length).map (fun j => (i + j, u)) := by
  intro eps
  induction eps with
  | nil => intro i bc ac; rfl
  | cons ep rest ih =>
    intro i bc ac
    have key : (List.range (rest.length + 1)).map (fun j => (i + j, u)) =
        (i, u) :: (List.range rest.length).map (fun j => (i + 1 + j, u)) := by
      rw [List.range_succ_eq_map]
      simp only [List.map_cons, List.map_map, Nat.add_zero]
      congr 1
      apply List.map_congr_left
      intro a _
      simp only [Function.comp_apply]
      congr 1
      omega
    cases hk : ep.kind <;>
      simp only [broadcastLoop, hk, List.length_cons, key, ih, List.cons.injEq,
        true_and]

theorem broadcastLoop_enc_cached (u : Command) :
    ∀ (eps : List Endpoint) (i : Nat) (ac : Bool),
      (broadcastLoop u eps i true ac).2.1 = 0 := by
  intro eps
  induction eps with
  | nil => intro i ac; rfl
  | cons ep rest ih =>
    intro i ac
    cases hk : ep.kind <;>
      (simp only [broadcastLoop, hk, ih, Nat.add_zero]; try simp)

theorem broadcastLoop_enc_le_one (u : Command) :
    ∀ (eps : List Endpoint) (i : Nat) (bc ac : Bool),
      (broadcastLoop u eps i bc ac).2.1 ≤ 1 := by
  intro eps
  induction eps with
  | nil => intro i bc ac; simp [broadcastLoop]
  | cons ep rest ih =>
    intro i bc ac
    cases hk : ep.kind
    · cases bc <;>
        (simp only [broadcastLoop, hk, broadcastLoop_enc_cached]; simp)
    · simpa only [broadcastLoop, hk] using ih (i + 1) bc true
    · simpa only [broadcastLoop, hk] using ih (i + 1) bc true
    · simpa only [broadcastLoop, hk] using ih (i + 1) bc ac

theorem broadcastLoop_remove (u : Command) :
    ∀ (eps : List Endpoint) (i : Nat) (bc ac : Bool),
      (broadcastLoop u eps i bc ac).2.2 = (failIdxs eps).map (· + i) := by
  intro eps
  induction eps with
  | nil => intro i bc ac; rfl
  | cons ep rest ih =>
    intro i bc ac
    have hshift : ∀ l : List Nat,
        (l.map (· + 1)).map (· + i) = l.map (· + (i + 1)) := by
      intro l
      rw [List.map_map]
      apply List.map_congr_left
      intro a _
      simp only [Function.comp_apply]
      omega
    cases hk : ep.kind <;> cases hf : ep.fails <;>
      simp only [broadcastLoop, hk, hf, failIdxs, epSurvives, Bool.not_false,
        Bool.not_true, if_true, if_false, List.map_cons, Nat.zero_add, hshift,
        ih, List.cons.injEq, true_and] <;>
      simp [hshift]

theorem foldl_eraseIdx_map_succ {α : Type} :
    ∀ (js : List Nat) (h : α) (t : List α),
      (js.map (· + 1)).foldl (fun acc i => acc.eraseIdx i) (h :: t) =
        h :: js.foldl (fun acc i => acc.eraseIdx i) t := by
  intro js
  induction js with
  | nil => intro h t; rfl
  | cons j js ih =>
    intro h t
    simp only [List.map_cons, List.foldl_cons, List.eraseIdx_cons_succ]
    exact ih h _

theorem removeIndicesDesc_failIdxs :
    ∀ eps : List Endpoint,
      removeIndicesDesc eps (failIdxs eps) = eps.filter epSurvives := by
  intro eps
  induction eps with
  | nil => rfl
  | cons ep rest ih =>
    by_cases hs : epSurvives ep = true
    · simp only [failIdxs, if_pos hs, removeIndicesDesc, List.filter_cons,
        hs, if_true]
      rw [← List.map_reverse, foldl_eraseIdx_map_succ]
      rw [removeIndicesDesc] at ih
      rw [ih]
    · have hs2 : epSurvives ep = false := by
        revert hs; cases epSurvives ep <;> simp
      simp only [failIdxs, if_neg hs, removeIndicesDesc, List.filter_cons, hs2,
        Bool.false_eq_true, if_false, List.reverse_cons]
      rw [← List.map_reverse, List.foldl_append, foldl_eraseIdx_map_succ]
      simp only [List.foldl_cons, List.foldl_nil, List.eraseIdx_cons_zero]
      rw [removeIndicesDesc] at ih
      rw [ih]

theorem applyLocal_endpoints (shuf : List Nat → List Nat) (pick : Nat → Nat)
    (db : Database) (c : Command) :
    (Database.applyLocal shuf pick db c).update_endpoints =
      db.update_endpoints := by
  cases c with
  | addSong s => exact (add_song_new_parts db s).2.2
  | addAlbum a => exact (add_album_new_parts db a).2.2
  | addArtist a => exact (add_artist_new_parts db a).2.2
  | modifySong s =>
      simp only [Database.applyLocal, Database.update_song]
      split <;> rfl
  | modifyAlbum a =>
      simp only [Database.applyLocal, Database.update_album]
      split <;> rfl
  | modifyArtist a =>
      simp only [Database.applyLocal, Database.update_artist]
      split <;> rfl
  | queueUpdate path q =>
      simp only [Database.applyLocal]
      split <;> rfl
  | queueAdd path q =>
      simp only [Database.applyLocal]
      split <;> rfl
  | queueInsert path pos q =>
      simp only [Database.applyLocal]
      split <;> rfl
  | _ => rfl

/-- C7. Broadcast in `apply_command`: the command is sent to every
endpoint registered in the pre-state, in registry order, by the broadcast that
runs before any local mutation (`apply_command` factors as the local mutation
applied to the post-broadcast state, and the local mutation never touches the
registry); the byte encoding is computed at most once regardless of how many
`Bytes` endpoints are registered; and exactly the endpoints whose write or
send fails are removed from the registry while all others remain. -/
theorem C7_broadcast_fidelity (shuf : List Nat → List Nat) (pick : Nat → Nat)
    (db : Database) (c : Command) :
    (db.apply_command shuf pick c).2.1 =
      (List.range db.update_endpoints.length).map (fun j => (j, c)) ∧
    (db.apply_command shuf pick c).2.2 ≤ 1 ∧
    (db.apply_command shuf pick c).1.update_endpoints =
      db.update_endpoints.filter epSurvives ∧
    db.apply_command shuf pick c =
      (Database.applyLocal shuf pick (db.broadcast_update c).1 c,
        (db.broadcast_update c).2) ∧
    (∀ (db2 : Database) (c2 : Command),
      (Database.applyLocal shuf pick db2 c2).update_endpoints =
        db2.update_endpoints) := by
  refine ⟨?_, ?_, ?_, rfl, fun db2 c2 => applyLocal_endpoints shuf pick db2 c2⟩
  · show (db.broadcast_update c).2.1 =
      (List.range db.update_endpoints.length).map (fun j => (j, c))
    simp only [Database.broadcast_update, broadcastLoop_log, Nat.zero_add]
  · show (db.broadcast_update c).2.2 ≤ 1
    simp only [Database.broadcast_update]
    exact broadcastLoop_enc_le_one c db.update_endpoints 0 false false
  · show (Database.applyLocal shuf pick (db.broadcast_update c).1
        c).update_endpoints = db.update_endpoints.filter epSurvives
    rw [applyLocal_endpoints]
    simp only [Database.broadcast_update, broadcastLoop_remove]
    have hmap : (failIdxs db.update_endpoints).map (· + 0) =
        failIdxs db.update_endpoints := by
      simp
    rw [hmap, removeIndicesDesc_failIdxs]

/-! ## C8: main-connection initialization -/

theorem C8_counterexample :
    Database.new_clientside.init_connection =
      [Command.syncDatabase [] [] [],
        Command.queueUpdate [] Database.new_clientside.queue,
        Command.setLibraryDirectory ""] ∧
    Database.new_clientside.init_connection ≠
      [Command.syncDatabase [] [] [],
        Command.queueUpdate [] Database.new_clientside.queue,
        Command.setLibraryDirectory "",
        Command.initComplete] := by
  refine ⟨rfl, ?_⟩
  intro h
  have hlen := congrArg List.length h
  simp [Database.init_connection, Database.new_clientside] at hlen

/-- C8, amended. The initialization sequence written to a newly accepted
main connection is exactly, in order: `SyncDatabase` carrying all artists,
albums and songs; `QueueUpdate([], current queue)`; `Resume` if and only if
`playing` is true; and finally `SetLibraryDirectory(path)`. No `InitComplete`
is sent — `SetLibraryDirectory` is deliberately last so clients can use it as
the end-of-init marker. -/
theorem C8_init_connection (db : Database) :
    (db.playing = true →
      db.init_connection =
        [Command.syncDatabase (db.artists.map (·.2)) (db.albums.map (·.2))
            (db.songs.map (·.2)),
          Command.queueUpdate [] db.queue,
          Command.resume,
          Command.setLibraryDirectory db.lib_directory]) ∧
    (db.playing = false →
      db.init_connection =
        [Command.syncDatabase (db.artists.map (·.2)) (db.albums.map (·.2))
            (db.songs.map (·.2)),
          Command.queueUpdate [] db.queue,
          Command.setLibraryDirectory db.lib_directory]) ∧
    Command.initComplete ∉ db.init_connection := by
  refine ⟨?_, ?_, ?_⟩
  · intro hp; simp [Database.init_connection, hp]
  · intro hp; simp [Database.init_connection, hp]
  · cases hp : db.playing <;> simp [Database.init_connection, hp]

/-- A playing database for the C8 witness. -/
def db8 : Database := { Database.new_clientside with playing := true }

theorem C8_init_connection_witness :
    db8.init_connection =
      [Command.syncDatabase (db8.artists.map (·.2)) (db8.albums.map (·.2))
          (db8.songs.map (·.2)),
        Command.queueUpdate [] db8.queue,
        Command.resume,
        Command.setLibraryDirectory db8.lib_directory] :=
  (C8_init_connection db8).1 rfl

/-! ## C9: get-channel error behaviour -/

/-- A filesystem oracle with no readable files. -/
def fs0 : String → Option (List Nat) := fun _ => none

theorem C9_counterexample :
    handleGetLine fs0 Database.new_clientside "foo\n" = ([], true) ∧
    ¬ ((handleGetLine fs0 Database.new_clientside "foo\n").1 ≠ [] ∧
      (handleGetLine fs0 Database.new_clientside "foo\n").2 = false) := by
  refine ⟨rfl, ?_⟩
  rintro ⟨h1, h2⟩
  have ht : (handleGetLine fs0 Database.new_clientside "foo\n").2 = true := rfl
  rw [ht] at h2
  cases h2

/-- C9, amended. Get-channel behaviour as the code implements it: a
request line whose decoded first line is not a recognized verb is silently
ignored — the handler writes nothing and keeps the channel open (the `_ => {}`
arm); a recognized `cover-bytes` request naming a missing cover gets the line
`no cover`; and `no data` when the cover exists but its bytes cannot be read.
In all three cases the read loop continues. -/
theorem C9_get_channel (fs : String → Option (List Nat)) (db : Database)
    (line : String) :
    (∀ (verb : String) (args : List String), line ≠ "" →
      rustLines (con_get_decode_line line) = verb :: args →
      verb ≠ "cover-bytes" →
      handleGetLine fs db line = ([], true)) ∧
    (∀ (idStr : String) (rest2 : List String) (id : Nat), line ≠ "" →
      rustLines (con_get_decode_line line) = "cover-bytes" :: idStr :: rest2 →
      parseU64? idStr = some id → lookup db.covers id = none →
      handleGetLine fs db line = ([.line "no cover"], true)) ∧
    (∀ (idStr : String) (rest2 : List String) (id : Nat)
      (cover : DatabaseLocation), line ≠ "" →
      rustLines (con_get_decode_line line) = "cover-bytes" :: idStr :: rest2 →
      parseU64? idStr = some id → lookup db.covers id = some cover →
      fs (db.get_path cover) = none →
      handleGetLine fs db line = ([.line "no data"], true)) := by
  refine ⟨?_, ?_, ?_⟩
  · intro verb args hline hsplit hverb
    simp only [handleGetLine, if_neg hline, hsplit]
    rw [if_neg hverb]
  · intro idStr rest2 id hline hsplit hparse hlk
    simp only [handleGetLine, if_neg hline, hsplit]
    rw [if_pos trivial]
    simp only [hparse, hlk]
  · intro idStr rest2 id cover hline hsplit hparse hlk hfs
    simp only [handleGetLine, if_neg hline, hsplit]
    rw [if_pos trivial]
    simp only [hparse, hlk, hfs]

theorem C9_get_channel_witness :
    handleGetLine fs0 Database.new_clientside "cover-bytes\\n5\n" =
      ([.line "no cover"], true) :=
  (C9_get_channel fs0 Database.new_clientside "cover-bytes\\n5\n").2.1
    "5" [] 5 (by decide) rfl rfl rfl

/-! ## C10: client-mode save is a no-op -/

/-- C10. For every database whose `db_file` path is empty — as
`new_clientside` constructs it — `save_database` with no explicit path
argument returns `Ok` without opening or writing any file (the write event is
`none`); the database state is unchanged, which the Rust signature guarantees
by taking `&self` (the model returns no modified database at all). -/
theorem C10_client_save_noop (db : Database) :
    (db.db_file = "" →
      db.save_database none = (.ok "", none)) ∧
    Database.new_clientside.db_file = "" ∧
    Database.new_clientside.save_database none = (.ok "", none) := by
  refine ⟨?_, rfl, rfl⟩
  intro h
  simp [Database.save_database, h]

theorem C10_client_save_noop_witness :
    Database.new_clientside.save_database none = (.ok "", none) :=
  (C10_client_save_noop Database.new_clientside).1 rfl
